import Mathlib

/-!
# The embedded-application loader of `os/src/loader.c`

A shallow embedding of the application registry (`get_num_app`, `get_app_data`,
`get_app_data_by_name`, `get_app_names`), of the ELF validator (`elf_check`), of the
address-space builder (`flags_to_mmap_prot`, `load_segment`) and of `load_app`, of the
build tool `insert_app_data` of `os/build.c` that writes the linked table, and of the
memory map and device-tree placement of the Quard Star board (`quard_star.c`, `boot.c`),
followed by the theorems that relate them to the written specification.

Conventions.
* A `u64` is a natural number below `2 ^ 64`; every C operation that can wrap is written
  with an explicit `% 2 ^ 64`.
* The linked table `_num_app` is the function from a word index to the word stored there.
* A `char*` is the list of bytes found from the pointer onwards; the C string it denotes
  is the part before the first NUL byte.
* A failing `assert`, a `panic` and an exhausted allocator do not return: they are the
  error results of `Except Fault`; `Fault.diverge` stands for a loop that would not end.
* Code that is not part of the sources (`kalloc`, `PageTable_map`, `task_create_pt`,
  `proc_ustack`, the string library) is either a parameter or a definition whose comment
  starts with "Modelled from the spec". `load_segment` does not look at what
  `PageTable_map` returns, so its page table is the list of requests it makes.
-/

namespace Loader

/-! ## Machine integers -/

/-- Number of values of a `u64` (also of a `size_t` on riscv64). -/
def U64 : Nat := 2 ^ 64

/-- Subtraction of two `u64` values, as the hardware does it. -/
def sub64 (a b : Nat) : Nat := (a % U64 + U64 - b % U64) % U64

/-- Conversion of a `size_t` or a `uint32_t` to `int`: the low 32 bits, read as two's
complement. -/
def toInt32 (x : Nat) : Int :=
  if x % 2 ^ 32 < 2 ^ 31 then ((x % 2 ^ 32 : Nat) : Int) else ((x % 2 ^ 32 : Nat) : Int) - 2 ^ 32

/-- Conversion of an `int` to `size_t`, as in the comparison `i < app_num`. -/
def toSizeT (x : Int) : Nat := (x % (2 ^ 64 : Int)).toNat

/-- The ways in which the kernel stops instead of returning. -/
inductive Fault where
  | assertion
  | panic
  | exhausted
  | diverge
deriving DecidableEq, Repr

instance instDecidableEqExcept {ε α : Type} [DecidableEq ε] [DecidableEq α] :
    DecidableEq (Except ε α)
  | .ok a, .ok b =>
    if h : a = b then isTrue (by rw [h]) else isFalse (fun e => h (by cases e; rfl))
  | .error a, .error b =>
    if h : a = b then isTrue (by rw [h]) else isFalse (fun e => h (by cases e; rfl))
  | .ok _, .error _ => isFalse (fun e => by cases e)
  | .error _, .ok _ => isFalse (fun e => by cases e)

/-! ## Application registry -/

/-- Modelled from the spec: the declaration of `AppMetadata` (timeros/loader.h) is not part
of the sources; the spec gives it as `{ id: integer, start: address, size: bytes }`.
`start` and `size` hold `u64` values, `id` is an integer (`-1` is stored into it). -/
structure AppMetadata where
  start : Nat
  size : Nat
  id : Int
deriving DecidableEq, Repr

/-- The linked table holding the words of a list, zero after its end. -/
def tableOf (l : List Nat) : Nat → Nat := fun i => l.getD i 0

/-- The function `get_num_app`: the first word of `_num_app`. -/
def get_num_app (num_app_tab : Nat → Nat) : Nat := num_app_tab 0

/-- The function `get_app_data`: the three fields are read from `_num_app[app_id]` and
`_num_app[app_id+1]`, then `assert(app_id <= num_app)` decides whether the record is
returned. -/
def get_app_data (num_app_tab : Nat → Nat) (app_id : Nat) : Except Fault AppMetadata :=
  let num_app := get_num_app num_app_tab
  let start := num_app_tab app_id
  let size := sub64 (num_app_tab ((app_id + 1) % U64)) (num_app_tab app_id)
  if app_id ≤ num_app then
    .ok { start := start, size := size, id := (app_id : Int) }
  else
    .error Fault.assertion

/-- The C string a `char*` denotes: the bytes before the first NUL. -/
def cstr (p : List Nat) : List Nat := p.takeWhile (fun c => c != 0)

/-- Modelled from the spec: `strlen` (kernel string library, not in the sources) counts
the bytes before the first NUL. -/
def strlen : List Nat → Nat
  | [] => 0
  | c :: cs => if c = 0 then 0 else strlen cs + 1

/-- Modelled from the spec: `strcmp` (kernel string library, not in the sources) walks both
strings while the bytes agree and are not NUL and returns the difference of the first
bytes that differ; the spec asks for an exact match. Bytes after the end of the modelled
memory read as NUL. -/
def strcmp : List Nat → List Nat → Int
  | [], [] => 0
  | [], b :: _ => 0 - (b : Int)
  | a :: _, [] => (a : Int)
  | a :: as, b :: bs =>
    if a = b then (if a = 0 then 0 else strcmp as bs) else (a : Int) - (b : Int)

/-- One round of the loop of `get_app_names`, for index `i`: entry 0 is the start of
`_app_names`, entry `i` is entry `i-1` advanced past that string and its NUL.
Pointers are offsets from `_app_names`. -/
def get_app_names_step (blob : List Nat) (i : Nat) (arr : Nat → Nat) : Nat → Nat :=
  if i = 0 then Function.update arr 0 0
  else Function.update arr i (arr (i - 1) + strlen (blob.drop (arr (i - 1))) + 1)

/-- The loop `for (i = 0; i < app_num; i++)` of `get_app_names`, with `k` rounds left. -/
def get_app_names_loop (blob : List Nat) : Nat → Nat → (Nat → Nat) → (Nat → Nat)
  | 0, _, arr => arr
  | k + 1, i, arr => get_app_names_loop blob k (i + 1) (get_app_names_step blob i arr)

/-- The static array `app_names` after `get_app_names`: the pointer in every slot (an
offset from `_app_names`), and whether every slot the loop touched lies inside the array. -/
structure AppNames where
  slots : Nat → Nat
  in_bounds : Bool

/-- The function `get_app_names`: fills the static array `app_names` (all zero before) from
the blob `_app_names`. The loop bound is the count converted to `int` and back, as in the
C. The array is `static char* app_names[MAX_TASKS]`; the constant `MAX_TASKS` is not part
of the sources and is a parameter. The loop has no bound check: it touches the slots
`0 .. app_num - 1`, which lie inside the array exactly when `app_num <= MAX_TASKS`, and
`in_bounds` records that. What a run stores past the end of the array is undefined in C;
`slots` then shows what the stores would leave in memory nothing else uses. -/
def get_app_names (MAX_TASKS : Nat) (num_app_tab : Nat → Nat) (blob : List Nat) : AppNames :=
  let app_num := toSizeT (toInt32 (get_num_app num_app_tab))
  { slots := get_app_names_loop blob app_num 0 (fun _ => 0)
    in_bounds := decide (app_num ≤ MAX_TASKS) }

/-- The loop of `get_app_data_by_name` with `k` rounds left, at index `i`;
`notfound` is the record returned after the loop. -/
def by_name_loop (num_app_tab : Nat → Nat) (blob : List Nat) (app_names : Nat → Nat)
    (path : List Nat) (notfound : AppMetadata) : Nat → Nat → Except Fault AppMetadata
  | 0, _ => .ok notfound
  | k + 1, i =>
    if strcmp path (blob.drop (app_names i)) = 0 then get_app_data num_app_tab (i + 1)
    else by_name_loop num_app_tab blob app_names path notfound k (i + 1)

/-- The function `get_app_data_by_name`: `metadata` is an uninitialised local (`uninit` stands for what
the stack holds) whose `id` is set to `-1`; the names are compared in index order and the
first match returns `get_app_data(i+1)`. -/
def get_app_data_by_name (num_app_tab : Nat → Nat) (blob : List Nat) (app_names : Nat → Nat)
    (uninit : AppMetadata) (path : List Nat) : Except Fault AppMetadata :=
  by_name_loop num_app_tab blob app_names path { uninit with id := -1 }
    (toSizeT (toInt32 (get_num_app num_app_tab))) 0

/-- The name stored at index `i`: the C string `app_names[i]` points to. -/
def stored_name (blob : List Nat) (app_names : Nat → Nat) (i : Nat) : List Nat :=
  cstr (blob.drop (app_names i))

/-- A linked table as the build tool lays it out: the count, then the start address of
every application and the end address of the last one, in ascending order; every word is
a `u64` and the count fits the `int` the loops keep it in. -/
def LinkedTable (num_app_tab : Nat → Nat) : Prop :=
  num_app_tab 0 < 2 ^ 31 ∧
  (∀ i, i ≤ num_app_tab 0 + 1 → num_app_tab i < 2 ^ 64) ∧
  (∀ i, i ≤ num_app_tab 0 → 1 ≤ i → num_app_tab i ≤ num_app_tab (i + 1))

instance (num_app_tab : Nat → Nat) : Decidable (LinkedTable num_app_tab) := by
  unfold LinkedTable; infer_instance

/-- The table of the spec's scenario: three applications at `[0,100)`, `[100,250)`,
`[250,300)`. -/
def exampleTable : Nat → Nat := tableOf [3, 0, 100, 250, 300]

/-- The name blob of the spec's scenario: `"a"`, `"b"`, `"c"`, each NUL-terminated. -/
def exampleNames : List Nat := [97, 0, 98, 0, 99, 0]

/-- A capacity of `app_names` for the examples (`MAX_TASKS` itself is not part of the
sources). -/
def exampleMaxTasks : Nat := 16

/-- A table whose count `2^32 + 2` does not fit an `int`: converted to `int` it reads `2`. -/
def wideCountTable : Nat → Nat := tableOf [2 ^ 32 + 2, 0, 100, 250, 300]

/-- A long run of empty names: `2^32 - 1` of them. -/
def manyEmptyNames : List (List Nat) := List.replicate (2 ^ 32 - 1) []

/-! ## ELF validator -/

/-- Modelled from the spec: `elf64_ehdr_t` (timeros/loader.h) is not part of the sources; the
spec fixes it as the standard 64-bit ELF header. `e_ident` holds the 16 identification
bytes, the other fields are the unsigned integers of the standard layout. -/
structure elf64_ehdr_t where
  e_ident : List Nat
  e_type : Nat
  e_machine : Nat
  e_version : Nat
  e_entry : Nat
  e_phoff : Nat
  e_shoff : Nat
  e_flags : Nat
  e_ehsize : Nat
  e_phentsize : Nat
  e_phnum : Nat
  e_shentsize : Nat
  e_shnum : Nat
  e_shstrndx : Nat
deriving DecidableEq, Repr

/-- Modelled from the spec: the ELF magic constant, the bytes `0x7f 'E' 'L' 'F'` read as a
little-endian `u32` (the header defining `ELFMAG` is not part of the sources). -/
def ELFMAG : Nat := 0x464C457F

/-- Modelled from the spec: the RISC-V machine identifier of the ELF standard. -/
def EM_RISCV : Nat := 243

/-- Modelled from the spec: index of the class byte in `e_ident`. -/
def EI_CLASS : Nat := 4

/-- Modelled from the spec: the class value of a 64-bit object. -/
def ELFCLASS64 : Nat := 2

/-- The value of `*(u32 *)ehdr`: the first four bytes of the header, little-endian. -/
def magic_word (ehdr : elf64_ehdr_t) : Nat :=
  ehdr.e_ident.getD 0 0 + 2 ^ 8 * ehdr.e_ident.getD 1 0 + 2 ^ 16 * ehdr.e_ident.getD 2 0
    + 2 ^ 24 * ehdr.e_ident.getD 3 0

/-- The function `elf_check`: an assertion on the magic word, then a panic unless the machine is RISC-V
and the class is 64-bit. -/
def elf_check (ehdr : elf64_ehdr_t) : Except Fault Unit :=
  if magic_word ehdr = ELFMAG then
    if ehdr.e_machine ≠ EM_RISCV ∨ ehdr.e_ident.getD EI_CLASS 0 ≠ ELFCLASS64 then
      .error Fault.panic
    else
      .ok ()
  else
    .error Fault.assertion

/-- The identification bytes of a header are 16 bytes. -/
def IdentBytes (ehdr : elf64_ehdr_t) : Prop :=
  ehdr.e_ident.length = 16 ∧ ∀ b ∈ ehdr.e_ident, b < 256

instance (ehdr : elf64_ehdr_t) : Decidable (IdentBytes ehdr) := by
  unfold IdentBytes; infer_instance

/-- A RISC-V 64-bit header as the toolchain writes it (little-endian, version 1). -/
def exampleEhdr : elf64_ehdr_t :=
  { e_ident := [0x7f, 0x45, 0x4c, 0x46, 2, 1, 1, 0, 0, 0, 0, 0, 0, 0, 0, 0]
    e_type := 2, e_machine := 243, e_version := 1, e_entry := 0x1000, e_phoff := 64
    e_shoff := 0, e_flags := 0, e_ehsize := 64, e_phentsize := 56, e_phnum := 1
    e_shentsize := 64, e_shnum := 0, e_shstrndx := 0 }

/-- The example header with its second magic byte changed from `'E'` to `'F'`. -/
def corruptedEhdr : elf64_ehdr_t :=
  { exampleEhdr with e_ident := [0x7f, 0x46, 0x4c, 0x46, 2, 1, 1, 0, 0, 0, 0, 0, 0, 0, 0, 0] }

/-! ## Address-space builder -/

/-- Modelled from the spec: `elf64_phdr_t` (timeros/loader.h) is not part of the sources; the
fields are those of the standard 64-bit program header. -/
structure elf64_phdr_t where
  p_type : Nat
  p_flags : Nat
  p_offset : Nat
  p_vaddr : Nat
  p_paddr : Nat
  p_filesz : Nat
  p_memsz : Nat
  p_align : Nat
deriving DecidableEq, Repr

/-- Modelled from the spec: the type of a loadable segment in the ELF standard. -/
def PT_LOAD : Nat := 1

/-- Modelled from the spec: the ELF segment flag "executable". -/
def PF_X : Nat := 1

/-- Modelled from the spec: the ELF segment flag "writable". -/
def PF_W : Nat := 2

/-- Modelled from the spec: the ELF segment flag "readable". -/
def PF_R : Nat := 4

/-- Modelled from the spec: the read bit of a RISC-V page-table entry (timeros/address.h is
not part of the sources). -/
def PTE_R : Nat := 2

/-- Modelled from the spec: the write bit of a RISC-V page-table entry. -/
def PTE_W : Nat := 4

/-- Modelled from the spec: the execute bit of a RISC-V page-table entry. -/
def PTE_X : Nat := 8

/-- Modelled from the spec: the user-mode bit of a RISC-V page-table entry. -/
def PTE_U : Nat := 16

/-- Modelled from the spec: the page size (timeros/address.h is not part of the sources);
the spec's scenario has 4 KiB pages. -/
def PAGE_SIZE : Nat := 4096

/-- Modelled from the spec: the macro `PGROUNDUP` (timeros/address.h is not part of the
sources) is given as `ceil(size / page_size) * page_size`. This is the exact value; the
`u64` the C stores it in is taken at each use. -/
def PGROUNDUP (sz : Nat) : Nat := (sz + PAGE_SIZE - 1) / PAGE_SIZE * PAGE_SIZE

/-- The function `flags_to_mmap_prot`: both the argument and the result are `u8`. -/
def flags_to_mmap_prot (flags : Nat) : Nat :=
  let flags := flags % 256
  ((if flags &&& PF_R ≠ 0 then PTE_R else 0) |||
   (if flags &&& PF_W ≠ 0 then PTE_W else 0) |||
   (if flags &&& PF_X ≠ 0 then PTE_X else 0)) % 256

/-- The `u8 map_perm` of `load_segment` for a segment with flag word `p_flags`. -/
def map_perm (p_flags : Nat) : Nat := (PTE_U ||| flags_to_mmap_prot p_flags) % 256

/-- One request to `PageTable_map`: the address handed to `virt_addr_from_size_t`, the one
handed to `phys_addr_from_size_t`, the size and the permission byte. -/
structure Mapping where
  va : Nat
  pa : Nat
  size : Nat
  perm : Nat
deriving DecidableEq, Repr

/-- One call of `memcpy`. -/
structure Copy where
  dst : Nat
  src : Nat
  len : Nat
deriving DecidableEq, Repr

/-- Modelled from the spec: `struct TaskControlBlock` is not part of the sources; the spec
gives `{ page_table, entry, ustack, base_size }`. The page table is black-box, so it is
kept as the requests made to `PageTable_map`, in order; the other fields are `u64`. -/
structure TaskControlBlock where
  pagetable : List Mapping
  entry : Nat
  ustack : Nat
  base_size : Nat
deriving DecidableEq, Repr

/-- What `load_segment` changes: the task, the number of pages `kalloc` has handed out and
the copies made into them. -/
structure Kernel where
  proc : TaskControlBlock
  allocated : Nat
  copies : List Copy
deriving DecidableEq, Repr

/-- The collaborators whose code is not part of the sources: `kalloc k` is the page
number the call number `k` of `kalloc` returns (`none` when no page is left, which is
fatal), and `phys_addr` is `phys_addr_from_phys_page_num(..).value`. -/
structure Collab where
  kalloc : Nat → Option Nat
  phys_addr : Nat → Nat

/-- The loop `for (size_t j = 0; j < map_size; j += PAGE_SIZE)` of `load_segment`, at `j`.
The first argument bounds the rounds still to run; `j` grows in every round, so
`map_size` rounds are enough, and running out of them is reported as `Fault.diverge`. -/
def page_loop (c : Collab) (base : Nat) (phdr : elf64_phdr_t) (start_va perm map_size : Nat) :
    Nat → Nat → Kernel → Except Fault Kernel
  | 0, j, st => if j < map_size then .error Fault.diverge else .ok st
  | fuel + 1, j, st =>
    if j < map_size then
      match c.kalloc st.allocated with
      | none => .error Fault.exhausted
      | some ppn =>
        let paddr := c.phys_addr ppn
        let cp : Copy := { dst := paddr, src := (base + phdr.p_offset + j) % U64, len := PAGE_SIZE }
        let m : Mapping := { va := (start_va + j) % U64, pa := paddr, size := PAGE_SIZE, perm := perm }
        page_loop c base phdr start_va perm map_size fuel ((j + PAGE_SIZE) % U64)
          { proc := { st.proc with pagetable := st.proc.pagetable ++ [m] }
            allocated := st.allocated + 1
            copies := st.copies ++ [cp] }
    else .ok st

/-- The body of the outer loop of `load_segment` for one program header. -/
def load_phdr (c : Collab) (base : Nat) (phdr : elf64_phdr_t) (st : Kernel) :
    Except Fault Kernel :=
  if phdr.p_type = PT_LOAD then
    let start_va := phdr.p_vaddr
    let st1 : Kernel := { st with proc := { st.proc with ustack := (start_va + phdr.p_memsz) % U64 } }
    let perm := map_perm phdr.p_flags
    let map_size := PGROUNDUP phdr.p_memsz % U64
    page_loop c base phdr start_va perm map_size map_size 0 st1
  else
    .ok st

/-- An image in memory: its header, the address `(u64)ehdr` it lies at, and the program
header found at each address. -/
structure Image where
  ehdr : elf64_ehdr_t
  base : Nat
  phdr_at : Nat → elf64_phdr_t

/-- The pointer `phdr` of round `i`: `e_phoff + e_phentsize * i + (u64)ehdr`. -/
def phdr_addr (img : Image) (i : Nat) : Nat :=
  (img.ehdr.e_phoff + img.ehdr.e_phentsize * i + img.base) % U64

/-- The loop `for (size_t i = 0; i < ehdr->e_phnum; i++)` of `load_segment`, with `k`
rounds left, at index `i`. -/
def phdr_loop (c : Collab) (img : Image) : Nat → Nat → Kernel → Except Fault Kernel
  | 0, _, st => .ok st
  | k + 1, i, st =>
    match load_phdr c img.base (img.phdr_at (phdr_addr img i)) st with
    | .error e => .error e
    | .ok st1 => phdr_loop c img k (i + 1) st1

/-- The two assignments that end `load_segment`. -/
def finish_stack (st : Kernel) : Kernel :=
  let ustack := (2 * PAGE_SIZE + PGROUNDUP st.proc.ustack) % U64
  { st with proc := { st.proc with ustack := ustack, base_size := ustack } }

/-- The function `load_segment`: the header loop, then the two closing assignments. -/
def load_segment (c : Collab) (img : Image) (st : Kernel) : Except Fault Kernel :=
  match phdr_loop c img img.ehdr.e_phnum 0 st with
  | .error e => .error e
  | .ok st1 => .ok (finish_stack st1)

/-- The program headers of an image, in file order. -/
def phdr_table (img : Image) : List elf64_phdr_t :=
  (List.range img.ehdr.e_phnum).map (fun i => img.phdr_at (phdr_addr img i))

/-- The loadable entries of an image, in file order. -/
def load_entries (img : Image) : List elf64_phdr_t :=
  (phdr_table img).filter (fun ph => ph.p_type = PT_LOAD)

/-- The end `p_vaddr + p_memsz` of a segment, as the `u64` the C computes. -/
def seg_end (ph : elf64_phdr_t) : Nat := (ph.p_vaddr + ph.p_memsz) % U64

/-- The image whose program headers are the given list, 56 bytes apart behind a 64-byte
header placed at address `base`. -/
def imageOf (base : Nat) (phs : List elf64_phdr_t) : Image :=
  { ehdr := { exampleEhdr with e_phnum := phs.length }
    base := base
    phdr_at := fun a => phs.getD ((a - base - 64) / 56) ⟨0, 0, 0, 0, 0, 0, 0, 0⟩ }

/-- An allocator that never runs out: call `k` returns page `0x80400 + k`, and a page
number is turned into an address by multiplying with the page size. -/
def exampleCollab : Collab :=
  { kalloc := fun k => some (0x80400 + k), phys_addr := fun ppn => ppn * PAGE_SIZE % U64 }

/-- A task before loading. -/
def emptyKernel : Kernel :=
  { proc := { pagetable := [], entry := 0, ustack := 0, base_size := 0 }, allocated := 0, copies := [] }

/-- The outer loop of `load_segment` seen on the list of program headers it visits. -/
def load_list (c : Collab) (base : Nat) : List elf64_phdr_t → Kernel → Except Fault Kernel
  | [], st => .ok st
  | ph :: rest, st =>
    match load_phdr c base ph st with
    | .error e => .error e
    | .ok st1 => load_list c base rest st1

/-- The request to `PageTable_map` expected for page `k` of a segment that starts at
`start_va`, when `a0` pages had been handed out before the segment. -/
def page_mapping (c : Collab) (start_va perm a0 k : Nat) : Mapping :=
  { va := (start_va + k * PAGE_SIZE) % U64
    pa := c.phys_addr ((c.kalloc (a0 + k)).getD 0)
    size := PAGE_SIZE
    perm := perm }

/-- The `memcpy` expected for page `k` of a segment. -/
def page_copy (c : Collab) (base : Nat) (phdr : elf64_phdr_t) (a0 k : Nat) : Copy :=
  { dst := c.phys_addr ((c.kalloc (a0 + k)).getD 0)
    src := (base + phdr.p_offset + k * PAGE_SIZE) % U64
    len := PAGE_SIZE }

/-- The number of pages of `m` bytes: `ceil(m / PAGE_SIZE)`. -/
def page_count (m : Nat) : Nat := (m + PAGE_SIZE - 1) / PAGE_SIZE

/-- The largest segment end of a list of program headers. -/
def max_end (l : List elf64_phdr_t) : Nat := (l.map seg_end).foldr max 0

/-- A read-execute segment of `0x100` bytes at `0x1000`. -/
def lowSegment : elf64_phdr_t :=
  { p_type := 1, p_flags := 5, p_offset := 0x1000, p_vaddr := 0x1000, p_paddr := 0x1000
    p_filesz := 0x100, p_memsz := 0x100, p_align := 0x1000 }

/-- A read-write segment of `0x1800` bytes at `0x10000`. -/
def highSegment : elf64_phdr_t :=
  { p_type := 1, p_flags := 6, p_offset := 0x2000, p_vaddr := 0x10000, p_paddr := 0x10000
    p_filesz := 0x10, p_memsz := 0x1800, p_align := 0x1000 }

/-- A loadable segment whose flag word has none of R, W, X. -/
def noPermSegment : elf64_phdr_t :=
  { p_type := 1, p_flags := 0, p_offset := 0x1000, p_vaddr := 0x1000, p_paddr := 0x1000
    p_filesz := 0x100, p_memsz := 0x100, p_align := 0x1000 }

/-- A loadable segment whose `p_memsz` is the largest `u64`. -/
def hugeSegment : elf64_phdr_t :=
  { p_type := 1, p_flags := 5, p_offset := 0x1000, p_vaddr := 0x1000, p_paddr := 0x1000
    p_filesz := 0x100, p_memsz := 2 ^ 64 - 1, p_align := 0x1000 }

/-- The state after the header loop on the image `[lowSegment, highSegment]`. -/
def loadedLowHigh : Kernel :=
  { proc := { pagetable := [⟨0x1000, 0x80400000, 4096, 26⟩, ⟨0x10000, 0x80401000, 4096, 22⟩,
                ⟨0x11000, 0x80402000, 4096, 22⟩]
              entry := 0, ustack := 0x11800, base_size := 0 }
    allocated := 3
    copies := [⟨0x80400000, 0x80201000, 4096⟩, ⟨0x80401000, 0x80202000, 4096⟩,
      ⟨0x80402000, 0x80203000, 4096⟩] }

/-- The state after `load_segment` on the image `[lowSegment]`. -/
def loadedLow : Kernel :=
  { proc := { pagetable := [⟨0x1000, 0x80400000, 4096, 26⟩]
              entry := 0, ustack := 0x4000, base_size := 0x4000 }
    allocated := 1
    copies := [⟨0x80400000, 0x80201000, 4096⟩] }

/-- The state after loading `noPermSegment` into an empty task. -/
def loadedNoPerm : Kernel :=
  { proc := { pagetable := [⟨0x1000, 0x80400000, 4096, 16⟩]
              entry := 0, ustack := 0x1100, base_size := 0 }
    allocated := 1
    copies := [⟨0x80400000, 0x80201000, 4096⟩] }

/-! ## Address-space builder: what a load requests -/

/-- The number of rounds of the page loop for a header: the `u64 map_size` counted in
pages for a loadable header, none for any other header. -/
def pages_of (ph : elf64_phdr_t) : Nat :=
  if ph.p_type = PT_LOAD then PGROUNDUP ph.p_memsz % U64 / PAGE_SIZE else 0

/-- The number of pages a list of program headers takes from `kalloc`. -/
def total_pages (l : List elf64_phdr_t) : Nat := (l.map pages_of).sum

/-- The part of a request that does not depend on the allocator: address, size and
permission byte. -/
def req_key (m : Mapping) : Nat × Nat × Nat := (m.va, m.size, m.perm)

/-- The requests a header makes, in order, as address, size and permission byte. -/
def phdr_requests (ph : elf64_phdr_t) : List (Nat × Nat × Nat) :=
  (List.range (pages_of ph)).map
    (fun k => ((ph.p_vaddr + k * PAGE_SIZE) % U64, PAGE_SIZE, map_perm ph.p_flags))

/-- The page loop once more, keeping the state in which it stops: the second component is
the fault that stopped it, `none` when the loop ran to its end. -/
def page_loop_stop (c : Collab) (base : Nat) (phdr : elf64_phdr_t)
    (start_va perm map_size : Nat) : Nat → Nat → Kernel → Kernel × Option Fault
  | 0, j, st => if j < map_size then (st, some Fault.diverge) else (st, none)
  | fuel + 1, j, st =>
    if j < map_size then
      match c.kalloc st.allocated with
      | none => (st, some Fault.exhausted)
      | some ppn =>
        let paddr := c.phys_addr ppn
        let cp : Copy := { dst := paddr, src := (base + phdr.p_offset + j) % U64, len := PAGE_SIZE }
        let m : Mapping := { va := (start_va + j) % U64, pa := paddr, size := PAGE_SIZE, perm := perm }
        page_loop_stop c base phdr start_va perm map_size fuel ((j + PAGE_SIZE) % U64)
          { proc := { st.proc with pagetable := st.proc.pagetable ++ [m] }
            allocated := st.allocated + 1
            copies := st.copies ++ [cp] }
    else (st, none)

/-- The body of the outer loop, keeping the state in which it stops. -/
def load_phdr_stop (c : Collab) (base : Nat) (phdr : elf64_phdr_t) (st : Kernel) :
    Kernel × Option Fault :=
  if phdr.p_type = PT_LOAD then
    let start_va := phdr.p_vaddr
    let st1 : Kernel := { st with proc := { st.proc with ustack := (start_va + phdr.p_memsz) % U64 } }
    let perm := map_perm phdr.p_flags
    let map_size := PGROUNDUP phdr.p_memsz % U64
    page_loop_stop c base phdr start_va perm map_size map_size 0 st1
  else
    (st, none)

/-- The outer loop on the list of program headers, keeping the state in which it stops. -/
def load_list_stop (c : Collab) (base : Nat) : List elf64_phdr_t → Kernel → Kernel × Option Fault
  | [], st => (st, none)
  | ph :: rest, st =>
    match load_phdr_stop c base ph st with
    | (st1, some e) => (st1, some e)
    | (st1, none) => load_list_stop c base rest st1

/-- The state in which `load_segment` stops, and the fault that stopped it if one did. -/
def load_segment_stop (c : Collab) (img : Image) (st : Kernel) : Kernel × Option Fault :=
  match load_list_stop c img.base (phdr_table img) st with
  | (st1, some e) => (st1, some e)
  | (st1, none) => (finish_stack st1, none)

/-- The result of a run that keeps its last state, as the result of the run itself. -/
def outcome (r : Kernel × Option Fault) : Except Fault Kernel :=
  match r with
  | (_, some e) => .error e
  | (st, none) => .ok st

/-! ## The page table and the memory as the spec describes them -/

/-- The failures of the page-table interface the spec names. -/
inductive MapError where
  | already_mapped
  | no_memory
deriving DecidableEq, Repr

/-- The virtual page number of an address. -/
def vpn (a : Nat) : Nat := a / PAGE_SIZE

/-- Modelled from the spec: `PageTable_map` (the page-table code is not part of the
sources) is given as `map(table, virtual_page, physical_page, size, permission_bits) ->
Result<(), MapError>` on a table from virtual page number to physical page and permission
bits. A request installs an entry for the page that holds its address, and is refused
with "already mapped" when that page has an entry. -/
def PageTable_map (pt : List Mapping) (m : Mapping) : Except MapError (List Mapping) :=
  if pt.any (fun x => decide (vpn x.va = vpn m.va)) then .error MapError.already_mapped
  else .ok (pt ++ [m])

/-- The page table that requests leave behind, starting from `pt`, when the result of
`PageTable_map` is not looked at: a refused request is passed over. -/
def install (pt : List Mapping) : List Mapping → List Mapping
  | [] => pt
  | m :: rest =>
    match PageTable_map pt m with
    | .ok pt1 => install pt1 rest
    | .error _ => install pt rest

/-- The requests that `PageTable_map` refuses, starting from the table `pt`. -/
def refused (pt : List Mapping) : List Mapping → List Mapping
  | [] => []
  | m :: rest =>
    match PageTable_map pt m with
    | .ok pt1 => refused pt1 rest
    | .error _ => m :: refused pt rest

/-- Modelled from the spec: `kalloc` returns a zeroed page and `memcpy` (kernel library,
not part of the sources) copies `len` bytes from `src` to `dst`. This is the memory after
the page at `cp.dst` has been handed out and the copy `cp` into it has been made. -/
def load_page (mem : Nat → Nat) (cp : Copy) : Nat → Nat :=
  fun a =>
    if cp.dst ≤ a ∧ a < cp.dst + cp.len then
      (if cp.dst ≤ cp.src + (a - cp.dst) ∧ cp.src + (a - cp.dst) < cp.dst + PAGE_SIZE then 0
       else mem (cp.src + (a - cp.dst)))
    else if cp.dst ≤ a ∧ a < cp.dst + PAGE_SIZE then 0
    else mem a

/-- The memory after a list of copies, each into a page just handed out. -/
def mem_after (mem : Nat → Nat) (copies : List Copy) : Nat → Nat :=
  copies.foldl load_page mem

/-- The byte a task reads at a virtual address: the entry of its page in the installed
table gives the physical page, `none` when the page has no entry. -/
def read_va (requests : List Mapping) (mem : Nat → Nat) (a : Nat) : Option Nat :=
  match (install [] requests).find? (fun m => decide (vpn m.va = vpn a)) with
  | none => none
  | some m => some (mem (m.pa + a % PAGE_SIZE))

/-! ## Loading an application -/

/-- The calls `load_app` makes, for the record of a run. -/
inductive Call where
  | get_app_data
  | elf_check
  | task_create_pt
  | load_segment
  | set_entry
  | proc_ustack
deriving DecidableEq, Repr

/-- What `load_app` reads and the collaborators whose code is not part of the sources:
the linked table, the ELF header and the program header found at an address, the
allocator, `task_create_pt` (given the application index and the kernel state it returns
the state with the new task) and `proc_ustack`. -/
structure AppEnv where
  num_app_tab : Nat → Nat
  ehdr_at : Nat → elf64_ehdr_t
  phdr_at : Nat → elf64_phdr_t
  collab : Collab
  task_create_pt : Nat → Kernel → Except Fault Kernel
  proc_ustack : Kernel → Except Fault Kernel

/-- The image `load_app` finds at the address `start`. -/
def image_at (env : AppEnv) (start : Nat) : Image :=
  { ehdr := env.ehdr_at start, base := start, phdr_at := env.phdr_at }

/-- The function `load_app`: the calls made, in order, and the result. A call that does
not return ends the run. -/
def load_app (env : AppEnv) (app_id : Nat) (st0 : Kernel) : List Call × Except Fault Kernel :=
  match get_app_data env.num_app_tab ((app_id + 1) % U64) with
  | .error e => ([Call.get_app_data], .error e)
  | .ok metadata =>
    let img := image_at env metadata.start
    match elf_check img.ehdr with
    | .error e => ([Call.get_app_data, Call.elf_check], .error e)
    | .ok _ =>
      match env.task_create_pt app_id st0 with
      | .error e => ([Call.get_app_data, Call.elf_check, Call.task_create_pt], .error e)
      | .ok st =>
        match load_segment env.collab img st with
        | .error e =>
          ([Call.get_app_data, Call.elf_check, Call.task_create_pt, Call.load_segment], .error e)
        | .ok st1 =>
          let st2 : Kernel := { st1 with proc := { st1.proc with entry := img.ehdr.e_entry } }
          ([Call.get_app_data, Call.elf_check, Call.task_create_pt, Call.load_segment,
              Call.set_entry, Call.proc_ustack],
            env.proc_ustack st2)

/-! ## More example inputs -/

/-- A read-write segment of `0x100` bytes at `0x1000`, the page of `lowSegment`. -/
def overlapSegment : elf64_phdr_t :=
  { p_type := 1, p_flags := 6, p_offset := 0x3000, p_vaddr := 0x1000, p_paddr := 0x1000
    p_filesz := 0x100, p_memsz := 0x100, p_align := 0x1000 }

/-- A read-write segment of `0x100` bytes at `0x2000`, right behind the page of
`lowSegment`. -/
def abutSegment : elf64_phdr_t :=
  { p_type := 1, p_flags := 6, p_offset := 0x3000, p_vaddr := 0x2000, p_paddr := 0x2000
    p_filesz := 0x100, p_memsz := 0x100, p_align := 0x1000 }

/-- A read-execute segment of one page of bytes that starts in the middle of a page. -/
def unalignedSegment : elf64_phdr_t :=
  { p_type := 1, p_flags := 5, p_offset := 0x1800, p_vaddr := 0x1800, p_paddr := 0x1800
    p_filesz := 0x1000, p_memsz := 0x1000, p_align := 0x1000 }

/-- A header that is not loadable (a note). -/
def noteSegment : elf64_phdr_t :=
  { p_type := 4, p_flags := 4, p_offset := 0x200, p_vaddr := 0, p_paddr := 0
    p_filesz := 0x20, p_memsz := 0x20, p_align := 4 }

/-- An allocator with two pages left. -/
def twoPageCollab : Collab :=
  { kalloc := fun k => if k < 2 then some (0x80400 + k) else none
    phys_addr := fun ppn => ppn * PAGE_SIZE % U64 }

/-- A memory that is zero except for the byte `0xAA` at `0x80202020`, which is the byte at
offset `0x20` of the file part of `highSegment` in an image placed at `0x80200000`. -/
def exampleMem : Nat → Nat := fun a => if a = 0x80202020 then 0xAA else 0

/-- A header with the machine field of another architecture. -/
def wrongMachineEhdr : elf64_ehdr_t := { exampleEhdr with e_machine := 62 }

/-- A header with the class byte of a 32-bit object. -/
def wrongClassEhdr : elf64_ehdr_t :=
  { exampleEhdr with e_ident := [0x7f, 0x45, 0x4c, 0x46, 1, 1, 1, 0, 0, 0, 0, 0, 0, 0, 0, 0] }

/-- A task as `task_create_pt` is described to make it: no mapping yet. -/
def freshTask : TaskControlBlock := { pagetable := [], entry := 0, ustack := 0, base_size := 0 }

/-- One application at `0x80200000` whose image has the header `ehdr` and the single
program header `lowSegment`; `task_create_pt` installs a fresh task and `proc_ustack`
changes nothing. -/
def envOf (ehdr : elf64_ehdr_t) : AppEnv :=
  { num_app_tab := tableOf [1, 0x80200000, 0x80204000]
    ehdr_at := fun _ => ehdr
    phdr_at := (imageOf 0x80200000 [lowSegment]).phdr_at
    collab := exampleCollab
    task_create_pt := fun _ st => .ok { st with proc := freshTask }
    proc_ustack := fun st => .ok st }

/-- The state after loading `highSegment` into an empty task. -/
def loadedHigh : Kernel :=
  { proc := { pagetable := [⟨0x10000, 0x80400000, 4096, 22⟩, ⟨0x11000, 0x80401000, 4096, 22⟩]
              entry := 0, ustack := 0x11800, base_size := 0 }
    allocated := 2
    copies := [⟨0x80400000, 0x80202000, 4096⟩, ⟨0x80401000, 0x80203000, 4096⟩] }

/-! ## The board: memory map and device-tree address (qemu sources) -/

/-- The structure `MemMapEntry` of `exec/hwaddr.h`: base address and size, both `hwaddr`
(64-bit unsigned). -/
structure MemMapEntry where
  base : Nat
  size : Nat
deriving DecidableEq, Repr

/-- Index of the mask ROM in the memory map (first value of the enumeration). -/
def QUARD_STAR_MROM : Nat := 0

/-- Index of the SRAM in the memory map. -/
def QUARD_STAR_SRAM : Nat := 1

/-- Index of the CLINT in the memory map. -/
def QUARD_STAR_CLINT : Nat := 2

/-- Index of the PLIC in the memory map. -/
def QUARD_STAR_PLIC : Nat := 3

/-- Index of the first UART in the memory map. -/
def QUARD_STAR_UART0 : Nat := 4

/-- Index of the second UART in the memory map. -/
def QUARD_STAR_UART1 : Nat := 5

/-- Index of the third UART in the memory map. -/
def QUARD_STAR_UART2 : Nat := 6

/-- Index of the real-time clock in the memory map. -/
def QUARD_STAR_RTC : Nat := 7

/-- Index of the virtio device in the memory map. -/
def QUARD_STAR_VIRTIO0 : Nat := 8

/-- Index of the flash in the memory map. -/
def QUARD_STAR_FLASH : Nat := 9

/-- Index of the DRAM in the memory map. -/
def QUARD_STAR_DRAM : Nat := 10

/-- The table `quard_star_memmap`, in the order of the enumeration that indexes it. -/
def quard_star_memmap : List MemMapEntry :=
  [ { base := 0x0, size := 0x8000 },
    { base := 0x8000, size := 0x8000 },
    { base := 0x02000000, size := 0x10000 },
    { base := 0x0c000000, size := 0x210000 },
    { base := 0x10000000, size := 0x1000 },
    { base := 0x10001000, size := 0x1000 },
    { base := 0x10002000, size := 0x1000 },
    { base := 0x10003000, size := 0x1000 },
    { base := 0x10100000, size := 0x1000 },
    { base := 0x20000000, size := 0x2000000 },
    { base := 0x80000000, size := 0x40000000 } ]

/-- The entry of the memory map at an index of the enumeration. -/
def memmap (i : Nat) : MemMapEntry := quard_star_memmap.getD i { base := 0, size := 0 }

/-- The constant `QUARD_STAR_SOCKETS_MAX`. -/
def QUARD_STAR_SOCKETS_MAX : Nat := 8

/-- The window `quard_star_plic_create` hands to `sifive_plic_create` for socket `i`:
the base `base + i * size` as `hwaddr`, and the aperture size. -/
def plic_window (i : Nat) : MemMapEntry :=
  { base := ((memmap QUARD_STAR_PLIC).base + i * (memmap QUARD_STAR_PLIC).size) % U64
    size := (memmap QUARD_STAR_PLIC).size }

/-- The window of the CLINT of socket `i` in `quard_star_aclint_create`: it starts at
`base + i * size`, and the next socket starts one `size` further. -/
def clint_window (i : Nat) : MemMapEntry :=
  { base := ((memmap QUARD_STAR_CLINT).base + i * (memmap QUARD_STAR_CLINT).size) % U64
    size := (memmap QUARD_STAR_CLINT).size }

/-- The regions of the memory map that are not replicated per socket. -/
def fixed_regions : List MemMapEntry :=
  [memmap QUARD_STAR_MROM, memmap QUARD_STAR_SRAM, memmap QUARD_STAR_UART0,
   memmap QUARD_STAR_UART1, memmap QUARD_STAR_UART2, memmap QUARD_STAR_RTC,
   memmap QUARD_STAR_VIRTIO0, memmap QUARD_STAR_FLASH, memmap QUARD_STAR_DRAM]

/-- All windows of a machine with `socket_count` sockets. -/
def board_windows (socket_count : Nat) : List MemMapEntry :=
  fixed_regions ++ (List.range socket_count).map clint_window ++
    (List.range socket_count).map plic_window

/-- Two regions are disjoint as half-open ranges `[base, base + size)`. -/
def Disjoint_regions (a b : MemMapEntry) : Prop :=
  a.base + a.size ≤ b.base ∨ b.base + b.size ≤ a.base

instance (a b : MemMapEntry) : Decidable (Disjoint_regions a b) := by
  unfold Disjoint_regions; infer_instance

/-- Modelled from the spec: `KiB` of `qemu/units.h`, which is not part of the sources. -/
def KiB : Nat := 2 ^ 10

/-- Modelled from the spec: `MiB` of `qemu/units.h`, which is not part of the sources. -/
def MiB : Nat := 2 ^ 20

/-- The constant `QUARD_STAR_FLASH_SECTOR_SIZE`. -/
def QUARD_STAR_FLASH_SECTOR_SIZE : Nat := 256 * KiB

/-- Modelled from the spec: `QEMU_IS_ALIGNED(n, m)` of `qemu/osdep.h`, which is not part
of the sources: `n` is a multiple of `m`. -/
def QEMU_IS_ALIGNED (n m : Nat) : Bool := n % m == 0

/-- Modelled from the spec: `QEMU_ALIGN_DOWN(n, m)` of `qemu/osdep.h`, which is not part
of the sources: `n` rounded down to a multiple of `m`. -/
def QEMU_ALIGN_DOWN (n m : Nat) : Nat := n / m * m

/-- The largest `uint32_t`. -/
def UINT32_MAX : Nat := 2 ^ 32 - 1

/-- The two assertions of `quard_star_flash_create` on the flash size. -/
def flash_asserts : Bool :=
  QEMU_IS_ALIGNED (memmap QUARD_STAR_FLASH).size QUARD_STAR_FLASH_SECTOR_SIZE &&
    decide ((memmap QUARD_STAR_FLASH).size / QUARD_STAR_FLASH_SECTOR_SIZE ≤ UINT32_MAX)

/-- The ways `riscv_compute_fdt_addr` ends without an address: the assertion on the
result of `fdt_pack`, and `exit(1)` on a size that is not positive. -/
inductive FdtFault where
  | corrupted_tree
  | invalid_device_tree
deriving DecidableEq, Repr

/-- The function `riscv_compute_fdt_addr`. `ret` is what `fdt_pack` returned, `totalsize`
the 32-bit size `fdt_totalsize` returned, which the function keeps in `int fdtsize`, and
`ram_size` is `ms->ram_size`; the addresses are `hwaddr`, so the sum and the difference
are taken modulo `2 ^ 64`. -/
def riscv_compute_fdt_addr (dram_base dram_size ram_size : Nat) (ret : Int)
    (totalsize : Nat) : Except FdtFault Nat :=
  let fdtsize := toInt32 totalsize
  if ret ≠ 0 then .error FdtFault.corrupted_tree
  else if fdtsize ≤ 0 then .error FdtFault.invalid_device_tree
  else
    let dram_end := (dram_base + (if dram_size ≠ 0 then min ram_size dram_size else ram_size)) % U64
    let temp := if dram_base < 3072 * MiB then min dram_end (3072 * MiB) else dram_end
    .ok (QEMU_ALIGN_DOWN (((temp : Int) - fdtsize) % (2 ^ 64 : Int)).toNat (2 * MiB))

/-- The end of the DRAM as `riscv_compute_fdt_addr` computes it, a `hwaddr`. -/
def fdt_dram_end (dram_base dram_size ram_size : Nat) : Nat :=
  (dram_base + (if dram_size ≠ 0 then min ram_size dram_size else ram_size)) % U64

/-- The limit below which the device tree is placed: the lower of the end of the DRAM and
3072 MiB when the DRAM starts below 3072 MiB, the end of the DRAM otherwise. -/
def fdt_limit (dram_base dram_size ram_size : Nat) : Nat :=
  if dram_base < 3072 * MiB then min (fdt_dram_end dram_base dram_size ram_size) (3072 * MiB)
  else fdt_dram_end dram_base dram_size ram_size

/-! ## Names, reads and the index convention: further definitions -/

/-- A name blob as the build tool lays it out: every name followed by a NUL byte. -/
def names_blob (names : List (List Nat)) : List Nat := names.flatMap (fun s => s ++ [0])

/-- The offset of name `i` in a name blob: the lengths of the names before it, plus one
NUL byte for each. -/
def name_offset (names : List (List Nat)) (i : Nat) : Nat :=
  ((names.take i).map (fun s => s.length + 1)).sum

/-- The part of a copy that does not depend on the allocator: the address read from and
the number of bytes read. -/
def copy_key (cp : Copy) : Nat × Nat := (cp.src, cp.len)

/-- The reads a header causes, in order: address and length of every chunk copied from
the image placed at `base`. -/
def phdr_reads (base : Nat) (ph : elf64_phdr_t) : List (Nat × Nat) :=
  (List.range (pages_of ph)).map
    (fun k => ((base + ph.p_offset + k * PAGE_SIZE) % U64, PAGE_SIZE))

/-- A name blob with an empty name in the middle: `"ab"`, `""`, `"c"`. -/
def gapNames : List (List Nat) := [[97, 98], [], [99]]

/-! ## The build tool (`build.c`) -/

/-- The comparison `compare_strings` handed to `qsort`: `strcmp` of the two names. -/
def compare_strings (a b : List Nat) : Int := strcmp a b

/-- The order `qsort` sorts into: the comparison is not positive. -/
def name_le (a b : List Nat) : Prop := compare_strings a b ≤ 0

instance instDecidableNameLe : DecidableRel name_le :=
  fun a b => inferInstanceAs (Decidable (compare_strings a b ≤ 0))

end Loader

open Loader

/-! ## Registry: auxiliary lemmas -/

theorem sub64_of_le {a b : Nat} (ha : a < 2 ^ 64) (hb : b ≤ a) : sub64 a b = a - b := by
  unfold sub64 U64
  rw [Nat.mod_eq_of_lt ha, Nat.mod_eq_of_lt (lt_of_le_of_lt hb ha)]
  omega

theorem count_roundtrip {n : Nat} (hn : n < 2 ^ 31) : toSizeT (toInt32 n) = n := by
  unfold toSizeT toInt32
  have h1 : n % 2 ^ 32 = n := Nat.mod_eq_of_lt (by omega)
  rw [h1, if_pos hn]
  omega

theorem cstr_cons_zero (l : List Nat) : cstr (0 :: l) = [] := rfl

theorem cstr_cons_ne {a : Nat} (l : List Nat) (ha : a ≠ 0) : cstr (a :: l) = a :: cstr l := by
  simp [cstr, List.takeWhile_cons, ha]

theorem get_app_data_ok {tab : Nat → Nat} {id : Nat} (h : id ≤ get_num_app tab) :
    get_app_data tab id =
      .ok { start := tab id, size := sub64 (tab ((id + 1) % U64)) (tab id), id := (id : Int) } := by
  simp [get_app_data, h]

theorem get_app_data_error {tab : Nat → Nat} {id : Nat} (h : get_num_app tab < id) :
    get_app_data tab id = .error Fault.assertion := by
  simp [get_app_data, Nat.not_le.mpr h]

/-- C1, as stated, fails: on the linked table `3, 0, 100, 250, 300` the id `0` lies in
`[0, get_num_app())`, yet `get_app_data(0)` returns the size `2^64 - 3`, which is not the
mathematical difference `table[1] - table[0] = -3`. -/
theorem get_app_data_size_wraps_at_id_zero :
    LinkedTable exampleTable ∧ 0 < get_num_app exampleTable ∧
    get_app_data exampleTable 0 = .ok { start := 3, size := 2 ^ 64 - 3, id := 0 } ∧
    ((2 ^ 64 - 3 : Nat) : Int) ≠ (exampleTable 1 : Int) - (exampleTable 0 : Int) := by
  decide

/-- C1, amended: on a linked table, for every id the range assertion admits
(`id ≤ get_num_app()`), `get_app_data(id)` returns the record with id `id`, start
`table[id]` and size `table[id+1] - table[id]` computed in `u64`; for every position
`1 ≤ id ≤ get_num_app()` of an application that size is the mathematical difference,
which is non-negative. -/
theorem get_app_data_fields (tab : Nat → Nat) (id : Nat) (hT : LinkedTable tab)
    (hid : id ≤ get_num_app tab) :
    get_app_data tab id =
      .ok { start := tab id, size := sub64 (tab (id + 1)) (tab id), id := (id : Int) } ∧
    (1 ≤ id → tab id ≤ tab (id + 1) ∧
      ((sub64 (tab (id + 1)) (tab id) : Nat) : Int) = (tab (id + 1) : Int) - (tab id : Int)) := by
  obtain ⟨hn, hw, hmono⟩ := hT
  have hid2 : id ≤ tab 0 := hid
  have hlt : (id + 1) % U64 = id + 1 := Nat.mod_eq_of_lt (by unfold U64; omega)
  refine ⟨by rw [get_app_data_ok hid, hlt], fun h1 => ?_⟩
  have hle := hmono id hid2 h1
  refine ⟨hle, ?_⟩
  rw [sub64_of_le (hw (id + 1) (by omega)) hle]
  omega

/-- Witness for C1 amended: the second application of the example table. -/
theorem get_app_data_fields_witness :
    get_app_data exampleTable 2 = .ok { start := 100, size := 150, id := 2 } ∧
    exampleTable 2 ≤ exampleTable 3 ∧
    ((sub64 (exampleTable 3) (exampleTable 2) : Nat) : Int) =
      (exampleTable 3 : Int) - (exampleTable 2 : Int) :=
  ⟨(get_app_data_fields exampleTable 2 (by decide) (by decide)).1,
   (get_app_data_fields exampleTable 2 (by decide) (by decide)).2 (by decide)⟩

/-- C2, as stated, fails: `id = get_num_app()` is not rejected. On the example table
`get_app_data(3)` passes the assertion and returns the record of the last application. -/
theorem get_app_data_accepts_count :
    get_num_app exampleTable = 3 ∧
    get_app_data exampleTable (get_num_app exampleTable) =
      .ok { start := 250, size := 50, id := 3 } := by
  decide

/-- C2, amended: `get_app_data(id)` returns a record exactly when `id ≤ get_num_app()`, and
stops on its range assertion exactly when `id > get_num_app()`; `id = get_num_app()` is
accepted. -/
theorem get_app_data_range (tab : Nat → Nat) (id : Nat) :
    ((∃ m, get_app_data tab id = .ok m) ↔ id ≤ get_num_app tab) ∧
    (get_app_data tab id = .error Fault.assertion ↔ get_num_app tab < id) := by
  by_cases h : id ≤ get_num_app tab
  · rw [get_app_data_ok h]
    simp [h]
  · have h2 : get_num_app tab < id := Nat.lt_of_not_le h
    rw [get_app_data_error h2]
    simp [h, h2]

theorem ident_byte_lt {ehdr : elf64_ehdr_t} (h : IdentBytes ehdr) (k : Nat) :
    ehdr.e_ident.getD k 0 < 256 := by
  by_cases hk : k < ehdr.e_ident.length
  · rw [List.getD_eq_getElem _ _ hk]
    exact h.2 _ (List.getElem_mem hk)
  · rw [List.getD_eq_default _ _ (Nat.le_of_not_lt hk)]
    decide

theorem magic_word_iff {ehdr : elf64_ehdr_t} (h : IdentBytes ehdr) :
    magic_word ehdr = ELFMAG ↔
      ehdr.e_ident.getD 0 0 = 0x7f ∧ ehdr.e_ident.getD 1 0 = 0x45 ∧
      ehdr.e_ident.getD 2 0 = 0x4c ∧ ehdr.e_ident.getD 3 0 = 0x46 := by
  have h0 := ident_byte_lt h 0
  have h1 := ident_byte_lt h 1
  have h2 := ident_byte_lt h 2
  have h3 := ident_byte_lt h 3
  unfold magic_word ELFMAG
  generalize ehdr.e_ident.getD 0 0 = a at h0 ⊢
  generalize ehdr.e_ident.getD 1 0 = b at h1 ⊢
  generalize ehdr.e_ident.getD 2 0 = c at h2 ⊢
  generalize ehdr.e_ident.getD 3 0 = d at h3 ⊢
  omega

theorem elf_check_ok_iff (ehdr : elf64_ehdr_t) :
    elf_check ehdr = .ok () ↔
      magic_word ehdr = ELFMAG ∧ ehdr.e_machine = EM_RISCV ∧
        ehdr.e_ident.getD EI_CLASS 0 = ELFCLASS64 := by
  unfold elf_check
  by_cases hm : magic_word ehdr = ELFMAG
  · by_cases h1 : ehdr.e_machine = EM_RISCV
    · by_cases h2 : ehdr.e_ident.getD EI_CLASS 0 = ELFCLASS64
      · simp [hm, h1, h2]
      · simp [hm, h1, h2]
    · simp [hm, h1]
  · simp [hm]

/-- C6: `elf_check` accepts a header exactly when the `u32` at its start is the ELF magic
constant, `e_machine` is `EM_RISCV` and `e_ident[EI_CLASS]` is `ELFCLASS64`; the magic
word is the constant exactly when the first four bytes are `0x7f 'E' 'L' 'F'`; so a header
that differs from an accepted one in one of its four magic bytes is rejected (by the
assertion), and a header with the right magic, machine and class is accepted. -/
theorem elf_check_accepts_iff (ehdr : elf64_ehdr_t) :
    (elf_check ehdr = .ok () ↔
      magic_word ehdr = ELFMAG ∧ ehdr.e_machine = EM_RISCV ∧
        ehdr.e_ident.getD EI_CLASS 0 = ELFCLASS64) ∧
    (IdentBytes ehdr →
      (magic_word ehdr = ELFMAG ↔
        ehdr.e_ident.getD 0 0 = 0x7f ∧ ehdr.e_ident.getD 1 0 = 0x45 ∧
        ehdr.e_ident.getD 2 0 = 0x4c ∧ ehdr.e_ident.getD 3 0 = 0x46)) ∧
    (∀ (bad : elf64_ehdr_t) (k : Nat), IdentBytes ehdr → IdentBytes bad →
      elf_check ehdr = .ok () → k < 4 →
      bad.e_ident.getD k 0 ≠ ehdr.e_ident.getD k 0 →
      elf_check bad = .error Fault.assertion) := by
  refine ⟨elf_check_ok_iff ehdr, fun h => magic_word_iff h, ?_⟩
  intro bad k hI hB hok hk hne
  have hgood := (magic_word_iff hI).1 ((elf_check_ok_iff ehdr).1 hok).1
  have hbad : magic_word bad ≠ ELFMAG := by
    intro hb
    have hb2 := (magic_word_iff hB).1 hb
    obtain ⟨g0, g1, g2, g3⟩ := hgood
    obtain ⟨b0, b1, b2, b3⟩ := hb2
    have hcases : k = 0 ∨ k = 1 ∨ k = 2 ∨ k = 3 := by omega
    rcases hcases with rfl | rfl | rfl | rfl
    · exact hne (by rw [b0, g0])
    · exact hne (by rw [b1, g1])
    · exact hne (by rw [b2, g2])
    · exact hne (by rw [b3, g3])
  simp [elf_check, hbad]

/-- Witness for C6: the unmodified RISC-V 64-bit header is accepted, and the header with
its second magic byte corrupted is rejected. -/
theorem elf_check_accepts_iff_witness :
    elf_check exampleEhdr = .ok () ∧ elf_check corruptedEhdr = .error Fault.assertion :=
  ⟨(elf_check_accepts_iff exampleEhdr).1.2 (by decide),
   (elf_check_accepts_iff exampleEhdr).2.2 corruptedEhdr 1 (by decide) (by decide) (by decide)
     (by decide) (by decide)⟩

/-! ## Address-space builder: auxiliary lemmas -/

theorem and_low_byte (x c : Nat) (hc : c < 256) : x % 256 &&& c = x &&& c := by
  have h1 : x % 256 = x &&& (2 ^ 8 - 1) := (Nat.and_pow_two_sub_one_eq_mod x 8).symm
  have h2 : (2 ^ 8 - 1) &&& c = c := by
    have : c % 2 ^ 8 = c := Nat.mod_eq_of_lt hc
    rw [Nat.and_comm, Nat.and_pow_two_sub_one_eq_mod, this]
  rw [h1, Nat.and_assoc, h2]

theorem map_perm_low_byte (f : Nat) : map_perm (f % 256) = map_perm f := by
  simp [map_perm, flags_to_mmap_prot]

set_option maxRecDepth 100000 in
theorem map_perm_small : ∀ g, g < 256 →
    ((map_perm g &&& PTE_R ≠ 0 ↔ g &&& PF_R ≠ 0) ∧
     (map_perm g &&& PTE_W ≠ 0 ↔ g &&& PF_W ≠ 0) ∧
     (map_perm g &&& PTE_X ≠ 0 ↔ g &&& PF_X ≠ 0) ∧
     map_perm g &&& PTE_U ≠ 0 ∧
     map_perm g &&& (PTE_R ||| PTE_W ||| PTE_X ||| PTE_U) = map_perm g ∧
     (g &&& (PF_R ||| PF_W ||| PF_X) = 0 → map_perm g = PTE_U)) := by
  decide

theorem map_perm_bits (f : Nat) :
    (map_perm f &&& PTE_R ≠ 0 ↔ f &&& PF_R ≠ 0) ∧
    (map_perm f &&& PTE_W ≠ 0 ↔ f &&& PF_W ≠ 0) ∧
    (map_perm f &&& PTE_X ≠ 0 ↔ f &&& PF_X ≠ 0) ∧
    map_perm f &&& PTE_U ≠ 0 ∧
    map_perm f &&& (PTE_R ||| PTE_W ||| PTE_X ||| PTE_U) = map_perm f ∧
    (f &&& (PF_R ||| PF_W ||| PF_X) = 0 → map_perm f = PTE_U) := by
  have h := map_perm_small (f % 256) (Nat.mod_lt _ (by decide))
  rw [map_perm_low_byte, and_low_byte f PF_R (by decide), and_low_byte f PF_W (by decide),
    and_low_byte f PF_X (by decide), and_low_byte f (PF_R ||| PF_W ||| PF_X) (by decide)] at h
  exact h

/-- What a returning page loop leaves behind: the stack fields are untouched and the page
table has grown by requests of one page each, all with the permission of the segment. -/
theorem page_loop_inv (c : Collab) (base : Nat) (phdr : elf64_phdr_t)
    (sva perm ms : Nat) : ∀ (fuel j : Nat) (st st1 : Kernel),
    page_loop c base phdr sva perm ms fuel j st = .ok st1 →
    st1.proc.ustack = st.proc.ustack ∧ st1.proc.base_size = st.proc.base_size ∧
    st1.proc.entry = st.proc.entry ∧
    ∃ l, st1.proc.pagetable = st.proc.pagetable ++ l ∧
      ∀ m ∈ l, m.perm = perm ∧ m.size = PAGE_SIZE := by
  intro fuel
  induction fuel with
  | zero =>
    intro j st st1 h
    unfold page_loop at h
    split at h
    · cases h
    · injection h with h
      subst h
      exact ⟨rfl, rfl, rfl, [], by simp, by simp⟩
  | succ fuel ih =>
    intro j st st1 h
    unfold page_loop at h
    split at h
    · split at h
      · cases h
      · obtain ⟨h1, h2, h3, l, h4, h5⟩ := ih _ _ _ h
        refine ⟨h1, h2, h3, _ :: l, by simpa using h4, ?_⟩
        intro m hm
        rcases List.mem_cons.1 hm with rfl | hm
        · exact ⟨rfl, rfl⟩
        · exact h5 m hm
    · injection h with h
      subst h
      exact ⟨rfl, rfl, rfl, [], by simp, by simp⟩

/-- The page loop runs to its end when the allocator supplies the pages: started at page
`k` of `N`, it leaves the requests for the pages `k, ..., N-1`. -/
theorem page_loop_run (c : Collab) (base : Nat) (phdr : elf64_phdr_t)
    (sva perm N a0 : Nat) (hN : N * PAGE_SIZE < U64) :
    ∀ (d k fuel : Nat) (st : Kernel), k + d = N → d ≤ fuel → st.allocated = a0 + k →
    (∀ i, k ≤ i → i < N → (c.kalloc (a0 + i)).isSome) →
    page_loop c base phdr sva perm (N * PAGE_SIZE) fuel (k * PAGE_SIZE) st =
      .ok { proc := { st.proc with
                        pagetable := st.proc.pagetable ++
                          (List.range' k d).map (page_mapping c sva perm a0) }
            allocated := a0 + N
            copies := st.copies ++ (List.range' k d).map (page_copy c base phdr a0) } := by
  intro d
  induction d with
  | zero =>
    intro k fuel st hk _ ha _
    have hkN : k = N := by omega
    subst hkN
    have hst : st = { proc := { pagetable := st.proc.pagetable, entry := st.proc.entry
                                ustack := st.proc.ustack, base_size := st.proc.base_size }
                      allocated := a0 + k, copies := st.copies } := by
      cases st; simp at ha ⊢; exact ha
    cases fuel with
    | zero => simp [page_loop]; exact hst
    | succ f => simp [page_loop]; exact hst
  | succ d ih =>
    intro k fuel st hk hf ha hall
    obtain ⟨f, rfl⟩ : ∃ f, fuel = f + 1 := ⟨fuel - 1, by omega⟩
    have hP : 0 < PAGE_SIZE := by decide
    have hlt : k * PAGE_SIZE < N * PAGE_SIZE := Nat.mul_lt_mul_of_pos_right (by omega) hP
    have hsome := hall k (Nat.le_refl k) (by omega)
    obtain ⟨ppn, hppn⟩ := Option.isSome_iff_exists.1 hsome
    have hnext : (k * PAGE_SIZE + PAGE_SIZE) % U64 = (k + 1) * PAGE_SIZE := by
      have h1 : (k + 1) * PAGE_SIZE ≤ N * PAGE_SIZE := Nat.mul_le_mul_right _ (by omega)
      have e : k * PAGE_SIZE + PAGE_SIZE = (k + 1) * PAGE_SIZE := (Nat.succ_mul k PAGE_SIZE).symm
      rw [e]
      exact Nat.mod_eq_of_lt (lt_of_le_of_lt h1 hN)
    unfold page_loop
    rw [if_pos hlt, ha, hppn]
    simp only
    rw [hnext]
    rw [ih (k + 1) f _ (by omega) (by omega) (by simp; omega)
      (fun i hi1 hi2 => hall i (by omega) hi2)]
    simp only [List.range'_succ, List.map_cons, page_mapping, page_copy, hppn, Option.getD_some,
      List.append_assoc, List.singleton_append]

theorem map_size_multiple (m : Nat) :
    PGROUNDUP m % U64 = (PGROUNDUP m % U64 / PAGE_SIZE) * PAGE_SIZE := by
  unfold PGROUNDUP PAGE_SIZE U64
  omega

theorem map_size_exact {m : Nat} (hm : m ≤ 2 ^ 64 - PAGE_SIZE) :
    PGROUNDUP m % U64 = page_count m * PAGE_SIZE := by
  unfold PGROUNDUP page_count PAGE_SIZE U64 at *
  omega

/-- A loadable header is processed to the end when the allocator supplies the pages. -/
theorem load_phdr_run (c : Collab) (base : Nat) (ph : elf64_phdr_t) (st : Kernel) (N : Nat)
    (hload : ph.p_type = PT_LOAD) (hN : PGROUNDUP ph.p_memsz % U64 = N * PAGE_SIZE)
    (hk : ∀ i, i < N → (c.kalloc (st.allocated + i)).isSome) :
    load_phdr c base ph st =
      .ok { proc := { pagetable := st.proc.pagetable ++
                        (List.range N).map (page_mapping c ph.p_vaddr (map_perm ph.p_flags) st.allocated)
                      entry := st.proc.entry
                      ustack := seg_end ph
                      base_size := st.proc.base_size }
            allocated := st.allocated + N
            copies := st.copies ++ (List.range N).map (page_copy c base ph st.allocated) } := by
  have hlt : N * PAGE_SIZE < U64 := by
    rw [← hN]; exact Nat.mod_lt _ (by decide)
  have hfuel : N ≤ N * PAGE_SIZE := Nat.le_mul_of_pos_right N (by decide)
  unfold load_phdr
  rw [if_pos hload]
  simp only
  rw [hN]
  have := page_loop_run c base ph ph.p_vaddr (map_perm ph.p_flags) N st.allocated hlt N 0
    (N * PAGE_SIZE)
    { st with proc := { st.proc with ustack := (ph.p_vaddr + ph.p_memsz) % U64 } }
    (by omega) hfuel rfl (fun i _ hi => hk i hi)
  rw [Nat.zero_mul] at this
  rw [this, List.range_eq_range']
  rfl

theorem load_phdr_total (c : Collab) (base : Nat) (ph : elf64_phdr_t) (st : Kernel)
    (hk : ∀ i, (c.kalloc i).isSome) : ∃ st1, load_phdr c base ph st = .ok st1 := by
  by_cases hload : ph.p_type = PT_LOAD
  · exact ⟨_, load_phdr_run c base ph st _ hload (map_size_multiple ph.p_memsz) (fun i _ => hk _)⟩
  · exact ⟨st, by simp [load_phdr, hload]⟩

/-- What a returning round of the outer loop leaves behind. -/
theorem load_phdr_inv (c : Collab) (base : Nat) (ph : elf64_phdr_t) (st st1 : Kernel)
    (h : load_phdr c base ph st = .ok st1) :
    st1.proc.ustack = (if ph.p_type = PT_LOAD then seg_end ph else st.proc.ustack) ∧
    ∃ l, st1.proc.pagetable = st.proc.pagetable ++ l ∧
      ∀ m ∈ l, m.perm = map_perm ph.p_flags ∧ m.size = PAGE_SIZE := by
  unfold load_phdr at h
  by_cases hload : ph.p_type = PT_LOAD
  · rw [if_pos hload] at h
    obtain ⟨h1, _, _, l, h4, h5⟩ := page_loop_inv _ _ _ _ _ _ _ _ _ _ h
    exact ⟨by rw [if_pos hload, h1]; rfl, l, h4, h5⟩
  · rw [if_neg hload] at h
    injection h with h
    subst h
    exact ⟨by rw [if_neg hload], [], by simp, by simp⟩

theorem phdr_loop_eq_load_list (c : Collab) (img : Image) : ∀ (k i : Nat) (st : Kernel),
    phdr_loop c img k i st =
      load_list c img.base ((List.range' i k).map (fun i => img.phdr_at (phdr_addr img i))) st := by
  intro k
  induction k with
  | zero => intro i st; rfl
  | succ k ih =>
    intro i st
    simp only [phdr_loop, List.range'_succ, List.map_cons, load_list]
    cases load_phdr c img.base (img.phdr_at (phdr_addr img i)) st with
    | error e => rfl
    | ok st1 => exact ih (i + 1) st1

theorem phdr_loop_eq_table (c : Collab) (img : Image) (st : Kernel) :
    phdr_loop c img img.ehdr.e_phnum 0 st = load_list c img.base (phdr_table img) st := by
  rw [phdr_loop_eq_load_list, phdr_table, List.range_eq_range']

theorem load_list_total (c : Collab) (base : Nat) (hk : ∀ i, (c.kalloc i).isSome) :
    ∀ (l : List elf64_phdr_t) (st : Kernel), ∃ st1, load_list c base l st = .ok st1 := by
  intro l
  induction l with
  | nil => intro st; exact ⟨st, rfl⟩
  | cons ph rest ih =>
    intro st
    obtain ⟨st1, h1⟩ := load_phdr_total c base ph st hk
    obtain ⟨st2, h2⟩ := ih st1
    exact ⟨st2, by simp [load_list, h1, h2]⟩

/-- After the outer loop the stack field holds the end of the last loadable header, or
its old value when no header is loadable. -/
theorem load_list_top (c : Collab) (base : Nat) :
    ∀ (l : List elf64_phdr_t) (st st1 : Kernel), load_list c base l st = .ok st1 →
    st1.proc.ustack =
      (((l.filter (fun ph => ph.p_type = PT_LOAD)).getLast?).map seg_end).getD st.proc.ustack := by
  intro l
  induction l with
  | nil =>
    intro st st1 h
    injection h with h
    subst h
    rfl
  | cons ph rest ih =>
    intro st st1 h
    unfold load_list at h
    cases hph : load_phdr c base ph st with
    | error e => rw [hph] at h; cases h
    | ok st2 =>
      rw [hph] at h
      have h2 := ih st2 st1 h
      have h3 := (load_phdr_inv c base ph st st2 hph).1
      rw [h2, h3]
      by_cases hload : ph.p_type = PT_LOAD
      · simp only [hload, if_true, List.filter_cons, decide_True, List.getLast?_cons]
        cases (List.filter (fun ph => decide (ph.p_type = PT_LOAD)) rest).getLast? <;> rfl
      · simp [hload, List.filter_cons]

theorem max_end_le (l : List elf64_phdr_t) (b : Nat) (h : ∀ ph ∈ l, seg_end ph ≤ b) :
    max_end l ≤ b := by
  induction l with
  | nil => simp [max_end]
  | cons a rest ih =>
    have h1 := h a (List.mem_cons_self a rest)
    have h2 := ih (fun ph hph => h ph (List.mem_cons_of_mem a hph))
    simp only [max_end, List.map_cons, List.foldr_cons] at h2 ⊢
    exact max_le h1 h2

theorem le_max_end (l : List elf64_phdr_t) (ph : elf64_phdr_t) (h : ph ∈ l) :
    seg_end ph ≤ max_end l := by
  induction l with
  | nil => cases h
  | cons a rest ih =>
    simp only [max_end, List.map_cons, List.foldr_cons]
    rcases List.mem_cons.1 h with rfl | h
    · exact le_max_left _ _
    · exact le_trans (ih h) (le_max_right _ _)

theorem pgroundup_shift (top : Nat) :
    PGROUNDUP (top + 2 * PAGE_SIZE) = 2 * PAGE_SIZE + PGROUNDUP top := by
  unfold PGROUNDUP PAGE_SIZE
  omega

theorem pgroundup_mod (x : Nat) : PGROUNDUP (x % U64) % U64 = PGROUNDUP x % U64 := by
  unfold PGROUNDUP PAGE_SIZE U64
  omega

/-! ## Address-space builder: the claims -/

/-- C7: the permission byte `load_segment` maps a segment with is `map_perm p_flags`, in
which `PTE_R` is set iff `PF_R` is set in the flag word, `PTE_W` iff `PF_W`, `PTE_X` iff
`PF_X`, `PTE_U` is always set and no other bit is set; every request the segment adds to
the page table carries that byte; a segment with none of R/W/X gets `PTE_U` alone, and
whatever the flags the segment is loaded as long as the allocator supplies pages. -/
theorem load_segment_permission (c : Collab) (base : Nat) (ph : elf64_phdr_t) (st : Kernel) :
    ((map_perm ph.p_flags &&& PTE_R ≠ 0 ↔ ph.p_flags &&& PF_R ≠ 0) ∧
     (map_perm ph.p_flags &&& PTE_W ≠ 0 ↔ ph.p_flags &&& PF_W ≠ 0) ∧
     (map_perm ph.p_flags &&& PTE_X ≠ 0 ↔ ph.p_flags &&& PF_X ≠ 0) ∧
     map_perm ph.p_flags &&& PTE_U ≠ 0 ∧
     map_perm ph.p_flags &&& (PTE_R ||| PTE_W ||| PTE_X ||| PTE_U) = map_perm ph.p_flags ∧
     (ph.p_flags &&& (PF_R ||| PF_W ||| PF_X) = 0 → map_perm ph.p_flags = PTE_U)) ∧
    (∀ st1, load_phdr c base ph st = .ok st1 →
      ∃ l, st1.proc.pagetable = st.proc.pagetable ++ l ∧
        ∀ m ∈ l, m.perm = map_perm ph.p_flags) ∧
    ((∀ i, (c.kalloc i).isSome) → ∃ st1, load_phdr c base ph st = .ok st1) := by
  refine ⟨map_perm_bits ph.p_flags, fun st1 h => ?_, fun hk => load_phdr_total c base ph st hk⟩
  obtain ⟨_, l, h1, h2⟩ := load_phdr_inv c base ph st st1 h
  exact ⟨l, h1, fun m hm => (h2 m hm).1⟩

/-- Witness for C7: a loadable segment with none of R/W/X is loaded, with `PTE_U` only. -/
theorem load_segment_permission_witness :
    map_perm noPermSegment.p_flags = PTE_U ∧
    (∃ st1, load_phdr exampleCollab 0x80200000 noPermSegment emptyKernel = .ok st1) ∧
    load_phdr exampleCollab 0x80200000 noPermSegment emptyKernel = .ok loadedNoPerm ∧
    (∃ l, loadedNoPerm.proc.pagetable = emptyKernel.proc.pagetable ++ l ∧
          ∀ m ∈ l, m.perm = map_perm noPermSegment.p_flags) :=
  ⟨(load_segment_permission exampleCollab 0x80200000 noPermSegment emptyKernel).1.2.2.2.2.2
      (by decide),
   (load_segment_permission exampleCollab 0x80200000 noPermSegment emptyKernel).2.2
      (fun _ => rfl),
   by decide,
   (load_segment_permission exampleCollab 0x80200000 noPermSegment emptyKernel).2.1
      loadedNoPerm (by decide)⟩

/-- C8, as stated, fails: for the loadable segment with `p_memsz = 2^64 - 1` the rounded
size wraps to `0` in the `u64 map_size`, so `load_segment` asks `kalloc` for no page and
installs no mapping, although `ceil(p_memsz / PAGE_SIZE) = 2^52`. -/
theorem huge_segment_maps_nothing :
    hugeSegment.p_type = PT_LOAD ∧ page_count hugeSegment.p_memsz = 2 ^ 52 ∧
    PGROUNDUP hugeSegment.p_memsz % U64 = 0 ∧
    load_phdr exampleCollab 0x80200000 hugeSegment emptyKernel =
      .ok { proc := { pagetable := [], entry := 0, ustack := 0xfff, base_size := 0 }
            allocated := 0, copies := [] } := by
  decide

/-- C8, amended: for a loadable segment whose memory size `m` is at most
`2^64 - PAGE_SIZE` (so that rounding up does not wrap), and an allocator that supplies the
pages, `load_segment` maps `ceil(m / PAGE_SIZE) * PAGE_SIZE` bytes: it takes exactly
`ceil(m / PAGE_SIZE)` pages from `kalloc` and adds exactly that many one-page mappings,
for the addresses `p_vaddr + k * PAGE_SIZE` (as `u64`), `k = 0 .. ceil(m/PAGE_SIZE) - 1`,
each copied from the image at `p_offset + k * PAGE_SIZE`. -/
theorem load_segment_page_count (c : Collab) (base : Nat) (ph : elf64_phdr_t) (st : Kernel)
    (hload : ph.p_type = PT_LOAD) (hm : ph.p_memsz ≤ 2 ^ 64 - PAGE_SIZE)
    (hk : ∀ i, i < page_count ph.p_memsz → (c.kalloc (st.allocated + i)).isSome) :
    (ph.p_memsz ≤ page_count ph.p_memsz * PAGE_SIZE ∧
      page_count ph.p_memsz * PAGE_SIZE < ph.p_memsz + PAGE_SIZE) ∧
    PGROUNDUP ph.p_memsz % U64 = page_count ph.p_memsz * PAGE_SIZE ∧
    ∃ st1, load_phdr c base ph st = .ok st1 ∧
      st1.allocated = st.allocated + page_count ph.p_memsz ∧
      st1.proc.pagetable = st.proc.pagetable ++
        (List.range (page_count ph.p_memsz)).map (fun k =>
          { va := (ph.p_vaddr + k * PAGE_SIZE) % U64
            pa := c.phys_addr ((c.kalloc (st.allocated + k)).getD 0)
            size := PAGE_SIZE
            perm := map_perm ph.p_flags }) ∧
      st1.copies = st.copies ++
        (List.range (page_count ph.p_memsz)).map (fun k =>
          { dst := c.phys_addr ((c.kalloc (st.allocated + k)).getD 0)
            src := (base + ph.p_offset + k * PAGE_SIZE) % U64
            len := PAGE_SIZE }) := by
  refine ⟨?_, map_size_exact hm, _,
    load_phdr_run c base ph st (page_count ph.p_memsz) hload (map_size_exact hm) hk,
    rfl, rfl, rfl⟩
  unfold page_count PAGE_SIZE
  omega

/-- Witness for C8 amended: the segment of `0x1800` bytes takes two pages. -/
theorem load_segment_page_count_witness :
    ∃ st1, load_phdr exampleCollab 0x80200000 highSegment emptyKernel = .ok st1 ∧
      st1.allocated = 2 :=
  let ⟨st1, h1, h2, _⟩ :=
    (load_segment_page_count exampleCollab 0x80200000 highSegment emptyKernel (by decide)
      (by decide) (fun _ _ => rfl)).2.2
  ⟨st1, h1, h2⟩

/-- C9, as stated, fails: in the image whose first loadable header covers
`[0x10000, 0x11800)` and whose second covers `[0x1000, 0x1100)`, the value `load_segment`
rounds to get the stack boundary is `0x1100`, the end of the header that comes last, not
the maximum `0x11800`; the boundary becomes `0x4000`, below the first segment. -/
theorem provisional_top_not_max :
    load_entries (imageOf 0x80200000 [highSegment, lowSegment]) = [highSegment, lowSegment] ∧
    (phdr_loop exampleCollab (imageOf 0x80200000 [highSegment, lowSegment]) 2 0 emptyKernel).map
        (fun st1 => st1.proc.ustack) = .ok 0x1100 ∧
    max (highSegment.p_vaddr + highSegment.p_memsz) (lowSegment.p_vaddr + lowSegment.p_memsz)
      = 0x11800 ∧
    (load_segment exampleCollab (imageOf 0x80200000 [highSegment, lowSegment]) emptyKernel).map
        (fun st2 => st2.proc.ustack) = .ok 0x4000 := by
  decide

/-- C9, amended: for every image with at least one `PT_LOAD` entry, the provisional top
`load_segment` uses to compute the stack boundary is `p_vaddr + p_memsz` (as `u64`) of the
`PT_LOAD` entry that comes last in the file; it is the maximum over all `PT_LOAD` entries
when no entry ends above the last one. The header loop ends whenever the allocator
supplies pages. -/
theorem provisional_top_is_last (c : Collab) (img : Image) (st st1 : Kernel)
    (h : phdr_loop c img img.ehdr.e_phnum 0 st = .ok st1) (hne : load_entries img ≠ []) :
    st1.proc.ustack = seg_end ((load_entries img).getLast hne) ∧
    load_segment c img st = .ok (finish_stack st1) ∧
    ((∀ ph ∈ load_entries img, seg_end ph ≤ seg_end ((load_entries img).getLast hne)) →
      st1.proc.ustack = max_end (load_entries img)) ∧
    ((∀ i, (c.kalloc i).isSome) →
      ∀ st0, ∃ st2, phdr_loop c img img.ehdr.e_phnum 0 st0 = .ok st2) := by
  have htop : st1.proc.ustack = seg_end ((load_entries img).getLast hne) := by
    rw [phdr_loop_eq_table] at h
    have := load_list_top c img.base (phdr_table img) st st1 h
    rw [this]
    have hl : (List.filter (fun ph => decide (ph.p_type = PT_LOAD)) (phdr_table img)).getLast? =
        some ((load_entries img).getLast hne) := List.getLast?_eq_getLast _ hne
    rw [hl]
    rfl
  refine ⟨htop, by simp [load_segment, h], fun hmax => ?_, fun hk st0 => ?_⟩
  · rw [htop]
    exact le_antisymm (le_max_end _ _ (List.getLast_mem hne)) (max_end_le _ _ hmax)
  · rw [phdr_loop_eq_table]
    exact load_list_total c img.base hk _ st0

/-- Witness for C9 amended: with the higher segment last, the provisional top is its end. -/
theorem provisional_top_is_last_witness :
    phdr_loop exampleCollab (imageOf 0x80200000 [lowSegment, highSegment]) 2 0 emptyKernel =
      .ok loadedLowHigh ∧
    loadedLowHigh.proc.ustack = seg_end highSegment ∧ seg_end highSegment = 0x11800 :=
  ⟨by decide,
   (provisional_top_is_last exampleCollab (imageOf 0x80200000 [lowSegment, highSegment])
    emptyKernel loadedLowHigh (by decide) (by decide)).1,
   by decide⟩

/-- C10: when `load_segment` returns, `task.ustack` is the provisional top (the stack field
as the header loop leaves it) plus two pages, rounded up to a page boundary, in `u64`
arithmetic; this is the value `2 * PAGE_SIZE + PGROUNDUP(top)` the code computes, and it
is the exact `PGROUNDUP(top + 2 * PAGE_SIZE)` whenever that fits 64 bits; `task.base_size`
equals `task.ustack`. `load_segment` returns whenever the allocator supplies pages. -/
theorem load_segment_stack (c : Collab) (img : Image) (st st2 : Kernel)
    (h : load_segment c img st = .ok st2) :
    (∃ st1, phdr_loop c img img.ehdr.e_phnum 0 st = .ok st1 ∧
      st2.proc.ustack = (2 * PAGE_SIZE + PGROUNDUP st1.proc.ustack) % U64 ∧
      st2.proc.ustack = PGROUNDUP ((st1.proc.ustack + 2 * PAGE_SIZE) % U64) % U64 ∧
      (PGROUNDUP (st1.proc.ustack + 2 * PAGE_SIZE) < U64 →
        st2.proc.ustack = PGROUNDUP (st1.proc.ustack + 2 * PAGE_SIZE)) ∧
      st2.proc.pagetable = st1.proc.pagetable) ∧
    st2.proc.base_size = st2.proc.ustack ∧
    ((∀ i, (c.kalloc i).isSome) → ∀ st0, ∃ st3, load_segment c img st0 = .ok st3) := by
  unfold load_segment at h
  cases hloop : phdr_loop c img img.ehdr.e_phnum 0 st with
  | error e => rw [hloop] at h; cases h
  | ok st1 =>
    rw [hloop] at h
    injection h with h
    subst h
    have hcode : (finish_stack st1).proc.ustack =
        (2 * PAGE_SIZE + PGROUNDUP st1.proc.ustack) % U64 := rfl
    refine ⟨⟨st1, rfl, hcode, ?_, ?_, rfl⟩, rfl, fun hk st0 => ?_⟩
    · rw [hcode, pgroundup_mod, pgroundup_shift]
    · intro hfit
      rw [hcode, ← pgroundup_shift]
      exact Nat.mod_eq_of_lt hfit
    · obtain ⟨st3, h3⟩ : ∃ st3, phdr_loop c img img.ehdr.e_phnum 0 st0 = .ok st3 := by
        rw [phdr_loop_eq_table]
        exact load_list_total c img.base hk _ st0
      exact ⟨finish_stack st3, by simp [load_segment, h3]⟩

/-- Witness for C10: one segment `[0x1000, 0x1100)` gives the boundary `0x4000`. -/
theorem load_segment_stack_witness :
    load_segment exampleCollab (imageOf 0x80200000 [lowSegment]) emptyKernel = .ok loadedLow ∧
    loadedLow.proc.base_size = loadedLow.proc.ustack ∧ loadedLow.proc.ustack = 0x4000 :=
  ⟨by decide,
   (load_segment_stack exampleCollab (imageOf 0x80200000 [lowSegment]) emptyKernel loadedLow
    (by decide)).2.1,
   by decide⟩

/-! ## Address-space builder: what a returning load has done -/

/-- A returning page loop was given a page at every call of `kalloc`. -/
theorem page_loop_ok_kalloc (c : Collab) (base : Nat) (phdr : elf64_phdr_t)
    (sva perm N a0 : Nat) (hN : N * PAGE_SIZE < U64) :
    ∀ (d k fuel : Nat) (st st1 : Kernel), k + d = N → st.allocated = a0 + k →
    page_loop c base phdr sva perm (N * PAGE_SIZE) fuel (k * PAGE_SIZE) st = .ok st1 →
    ∀ i, k ≤ i → i < N → (c.kalloc (a0 + i)).isSome := by
  intro d
  induction d with
  | zero =>
    intro k fuel st st1 hk _ _ i hi1 hi2
    omega
  | succ d ih =>
    intro k fuel st st1 hk ha h i hi1 hi2
    have hP : 0 < PAGE_SIZE := by decide
    have hlt : k * PAGE_SIZE < N * PAGE_SIZE := Nat.mul_lt_mul_of_pos_right (by omega) hP
    cases fuel with
    | zero =>
      unfold page_loop at h
      rw [if_pos hlt] at h
      cases h
    | succ f =>
      unfold page_loop at h
      rw [if_pos hlt, ha] at h
      cases hka : c.kalloc (a0 + k) with
      | none =>
        rw [hka] at h
        cases h
      | some ppn =>
        rw [hka] at h
        simp only at h
        by_cases hik : i = k
        · subst hik; rw [hka]; rfl
        · have hwrap : (k * PAGE_SIZE + PAGE_SIZE) % U64 = (k + 1) * PAGE_SIZE := by
            have e : k * PAGE_SIZE + PAGE_SIZE = (k + 1) * PAGE_SIZE :=
              (Nat.succ_mul k PAGE_SIZE).symm
            have h1 : (k + 1) * PAGE_SIZE ≤ N * PAGE_SIZE := Nat.mul_le_mul_right _ (by omega)
            rw [e]
            exact Nat.mod_eq_of_lt (lt_of_le_of_lt h1 hN)
          rw [hwrap] at h
          exact ih (k + 1) f _ st1 (by omega) (by simp; omega) h i (by omega) hi2

/-- A returning round of the outer loop on a loadable header has done exactly what
`load_phdr_run` describes. -/
theorem load_phdr_ok_exact (c : Collab) (base : Nat) (ph : elf64_phdr_t) (st st1 : Kernel)
    (hload : ph.p_type = PT_LOAD) (h : load_phdr c base ph st = .ok st1) :
    (∀ i, i < pages_of ph → (c.kalloc (st.allocated + i)).isSome) ∧
    st1 = { proc := { pagetable := st.proc.pagetable ++
                        (List.range (pages_of ph)).map
                          (page_mapping c ph.p_vaddr (map_perm ph.p_flags) st.allocated)
                      entry := st.proc.entry
                      ustack := seg_end ph
                      base_size := st.proc.base_size }
            allocated := st.allocated + pages_of ph
            copies := st.copies ++
              (List.range (pages_of ph)).map (page_copy c base ph st.allocated) } := by
  have hN : PGROUNDUP ph.p_memsz % U64 = pages_of ph * PAGE_SIZE := by
    rw [pages_of, if_pos hload]
    exact map_size_multiple ph.p_memsz
  have hlt : pages_of ph * PAGE_SIZE < U64 := by
    rw [← hN]; exact Nat.mod_lt _ (by decide)
  have hk : ∀ i, i < pages_of ph → (c.kalloc (st.allocated + i)).isSome := by
    intro i hi
    have h2 := h
    unfold load_phdr at h2
    rw [if_pos hload] at h2
    simp only at h2
    rw [hN] at h2
    have h3 : (0 : Nat) = 0 * PAGE_SIZE := by simp
    rw [h3] at h2
    exact page_loop_ok_kalloc c base ph ph.p_vaddr (map_perm ph.p_flags) (pages_of ph)
      st.allocated hlt (pages_of ph) 0 (pages_of ph * PAGE_SIZE)
      { st with proc := { st.proc with ustack := (ph.p_vaddr + ph.p_memsz) % U64 } } st1
      (by omega) rfl h2 i (Nat.zero_le i) hi
  refine ⟨hk, ?_⟩
  have hrun := load_phdr_run c base ph st (pages_of ph) hload hN hk
  rw [hrun] at h
  injection h with h
  exact h.symm

theorem load_phdr_skip (c : Collab) (base : Nat) (ph : elf64_phdr_t) (st : Kernel)
    (hload : ¬ ph.p_type = PT_LOAD) : load_phdr c base ph st = .ok st := by
  simp [load_phdr, hload]

theorem pages_of_skip (ph : elf64_phdr_t) (hload : ¬ ph.p_type = PT_LOAD) : pages_of ph = 0 := by
  simp [pages_of, hload]

/-- Headers that are not loadable can be left out of the list. -/
theorem load_list_filter (c : Collab) (base : Nat) :
    ∀ (l : List elf64_phdr_t) (st : Kernel),
    load_list c base l st =
      load_list c base (l.filter (fun ph => ph.p_type = PT_LOAD)) st := by
  intro l
  induction l with
  | nil => intro st; rfl
  | cons ph rest ih =>
    intro st
    by_cases hload : ph.p_type = PT_LOAD
    · simp only [List.filter_cons, hload, decide_True, if_true, load_list]
      cases load_phdr c base ph st with
      | error e => rfl
      | ok st1 => exact ih st1
    · simp only [List.filter_cons, hload, decide_False, load_list, load_phdr_skip c base ph st hload]
      exact ih st

/-- What a returning header loop has done: the pages it took and the requests it made. -/
theorem load_list_ok_exact (c : Collab) (base : Nat) :
    ∀ (l : List elf64_phdr_t) (st st2 : Kernel), load_list c base l st = .ok st2 →
    st2.allocated = st.allocated + total_pages l ∧
    (∀ i, i < total_pages l → (c.kalloc (st.allocated + i)).isSome) ∧
    st2.proc.pagetable.map req_key =
      st.proc.pagetable.map req_key ++ l.flatMap phdr_requests ∧
    st2.copies.length = st.copies.length + total_pages l ∧
    st2.proc.entry = st.proc.entry ∧ st2.proc.base_size = st.proc.base_size := by
  intro l
  induction l with
  | nil =>
    intro st st2 h
    injection h with h
    subst h
    simp [total_pages]
  | cons ph rest ih =>
    intro st st2 h
    unfold load_list at h
    cases hph : load_phdr c base ph st with
    | error e => rw [hph] at h; cases h
    | ok st1 =>
      rw [hph] at h
      obtain ⟨h1, h2, h3, h4, h5, h6⟩ := ih st1 st2 h
      have htot : total_pages (ph :: rest) = pages_of ph + total_pages rest := by
        simp [total_pages]
      by_cases hload : ph.p_type = PT_LOAD
      · obtain ⟨hk, hst1⟩ := load_phdr_ok_exact c base ph st st1 hload hph
        have ha : st1.allocated = st.allocated + pages_of ph := by rw [hst1]
        have hp : st1.proc.pagetable.map req_key =
            st.proc.pagetable.map req_key ++ phdr_requests ph := by
          rw [hst1]
          simp [phdr_requests, page_mapping, req_key, Function.comp_def]
        have hc : st1.copies.length = st.copies.length + pages_of ph := by
          rw [hst1]; simp
        have he : st1.proc.entry = st.proc.entry := by rw [hst1]
        have hb : st1.proc.base_size = st.proc.base_size := by rw [hst1]
        refine ⟨by rw [h1, ha, htot]; omega, ?_, ?_, by rw [h4, hc, htot]; omega,
          by rw [h5, he], by rw [h6, hb]⟩
        · intro i hi
          by_cases hi2 : i < pages_of ph
          · exact hk i hi2
          · have := h2 (i - pages_of ph) (by omega)
            rw [ha] at this
            rwa [show st.allocated + pages_of ph + (i - pages_of ph) = st.allocated + i by omega]
              at this
        · rw [h3, hp, List.flatMap_cons, List.append_assoc]
      · rw [load_phdr_skip c base ph st hload] at hph
        injection hph with hph
        subst hph
        have hz := pages_of_skip ph hload
        refine ⟨by rw [h1, htot, hz]; omega, ?_, ?_, by rw [h4, htot, hz]; omega, h5, h6⟩
        · intro i hi
          exact h2 i (by omega)
        · rw [h3, List.flatMap_cons]
          simp [phdr_requests, hz]

theorem phdr_loop_top (c : Collab) (img : Image) (st st1 : Kernel)
    (h : phdr_loop c img img.ehdr.e_phnum 0 st = .ok st1) (hne : load_entries img ≠ []) :
    st1.proc.ustack = seg_end ((load_entries img).getLast hne) := by
  rw [phdr_loop_eq_table] at h
  have := load_list_top c img.base (phdr_table img) st st1 h
  rw [this]
  have hl : (List.filter (fun ph => decide (ph.p_type = PT_LOAD)) (phdr_table img)).getLast? =
      some ((load_entries img).getLast hne) := List.getLast?_eq_getLast _ hne
  rw [hl]
  rfl

theorem load_segment_ok_split (c : Collab) (img : Image) (st st2 : Kernel)
    (h : load_segment c img st = .ok st2) :
    ∃ st1, phdr_loop c img img.ehdr.e_phnum 0 st = .ok st1 ∧ st2 = finish_stack st1 := by
  unfold load_segment at h
  cases hloop : phdr_loop c img img.ehdr.e_phnum 0 st with
  | error e => rw [hloop] at h; cases h
  | ok st1 =>
    rw [hloop] at h
    injection h with h
    exact ⟨st1, rfl, h.symm⟩

theorem finish_stack_aligned (st : Kernel) :
    (finish_stack st).proc.ustack % PAGE_SIZE = 0 ∧ (finish_stack st).proc.ustack < U64 := by
  have h : (finish_stack st).proc.ustack = (2 * PAGE_SIZE + PGROUNDUP st.proc.ustack) % U64 := rfl
  rw [h]
  unfold PGROUNDUP PAGE_SIZE U64
  omega

theorem finish_stack_ge (st : Kernel) (hfit : PGROUNDUP st.proc.ustack + 2 * PAGE_SIZE < U64) :
    st.proc.ustack + 2 * PAGE_SIZE ≤ (finish_stack st).proc.base_size := by
  have h : (finish_stack st).proc.base_size = (2 * PAGE_SIZE + PGROUNDUP st.proc.ustack) % U64 :=
    rfl
  rw [h]
  unfold PGROUNDUP PAGE_SIZE U64 at *
  omega

/-! ## Stack base, zero fill and coverage: the claims -/

/-- C11, as stated, fails: for the image whose loadable headers cover `[0x10000, 0x11800)`
and then `[0x1000, 0x1100)`, `load_segment` leaves `ustack = base_size = 0x4000`, which is
below the end `0x11800` of the first segment. -/
theorem stack_base_below_segment_end :
    load_entries (imageOf 0x80200000 [highSegment, lowSegment]) = [highSegment, lowSegment] ∧
    (load_segment exampleCollab (imageOf 0x80200000 [highSegment, lowSegment]) emptyKernel).map
        (fun st2 => (st2.proc.ustack, st2.proc.base_size)) = .ok (0x4000, 0x4000) ∧
    ¬ (highSegment.p_vaddr + highSegment.p_memsz ≤ 0x4000) := by
  decide

/-- C11, amended: after `load_segment` on any image, `task.ustack >= task.base_size` (the
two are equal), both are 64-bit values and multiples of `PAGE_SIZE`, and, when the image
has a `PT_LOAD` entry and the rounded end of the last one plus two pages fits 64 bits,
`task.base_size` is at least `p_vaddr + p_memsz` (as `u64`) of the last `PT_LOAD` entry
plus two pages; it is at least the maximum over all `PT_LOAD` entries when no entry ends
above the last one. -/
theorem stack_base_bounds (c : Collab) (img : Image) (st st2 : Kernel)
    (h : load_segment c img st = .ok st2) :
    st2.proc.base_size ≤ st2.proc.ustack ∧ st2.proc.ustack = st2.proc.base_size ∧
    st2.proc.ustack % PAGE_SIZE = 0 ∧ st2.proc.base_size % PAGE_SIZE = 0 ∧
    st2.proc.ustack < U64 ∧
    ∀ hne : load_entries img ≠ [],
      PGROUNDUP (seg_end ((load_entries img).getLast hne)) + 2 * PAGE_SIZE < U64 →
      seg_end ((load_entries img).getLast hne) + 2 * PAGE_SIZE ≤ st2.proc.base_size ∧
      ((∀ ph ∈ load_entries img, seg_end ph ≤ seg_end ((load_entries img).getLast hne)) →
        max_end (load_entries img) + 2 * PAGE_SIZE ≤ st2.proc.base_size) := by
  obtain ⟨st1, hloop, rfl⟩ := load_segment_ok_split c img st st2 h
  have hal := finish_stack_aligned st1
  have heq : (finish_stack st1).proc.ustack = (finish_stack st1).proc.base_size := rfl
  refine ⟨by rw [heq], heq, hal.1, by rw [← heq]; exact hal.1, hal.2, fun hne hfit => ?_⟩
  have htop := phdr_loop_top c img st st1 hloop hne
  rw [← htop] at hfit
  have hge := finish_stack_ge st1 hfit
  rw [htop] at hge
  refine ⟨hge, fun hmax => ?_⟩
  have := max_end_le _ _ hmax
  omega

/-- Witness for C11 amended: the image `[lowSegment, highSegment]`, whose last loadable
entry ends at `0x11800`, gets `ustack = base_size = 0x14000`. -/
theorem stack_base_bounds_witness :
    load_segment exampleCollab (imageOf 0x80200000 [lowSegment, highSegment]) emptyKernel =
      .ok (finish_stack loadedLowHigh) ∧
    (finish_stack loadedLowHigh).proc.ustack = 0x14000 ∧
    (finish_stack loadedLowHigh).proc.base_size ≤ (finish_stack loadedLowHigh).proc.ustack ∧
    (finish_stack loadedLowHigh).proc.base_size % PAGE_SIZE = 0 :=
  ⟨by decide, by decide,
   (stack_base_bounds exampleCollab (imageOf 0x80200000 [lowSegment, highSegment]) emptyKernel
      (finish_stack loadedLowHigh) (by decide)).1,
   (stack_base_bounds exampleCollab (imageOf 0x80200000 [lowSegment, highSegment]) emptyKernel
      (finish_stack loadedLowHigh) (by decide)).2.2.2.1⟩

/-- The page loop reads the program header for `p_offset` only. -/
theorem page_loop_offset_only (c : Collab) (base : Nat) (ph ph2 : elf64_phdr_t)
    (sva perm ms : Nat) (hoff : ph2.p_offset = ph.p_offset) : ∀ (fuel j : Nat) (st : Kernel),
    page_loop c base ph2 sva perm ms fuel j st = page_loop c base ph sva perm ms fuel j st := by
  intro fuel
  induction fuel with
  | zero => intro j st; rfl
  | succ fuel ih =>
    intro j st
    unfold page_loop
    by_cases hj : j < ms
    · rw [if_pos hj, if_pos hj]
      cases c.kalloc st.allocated with
      | none => rfl
      | some ppn =>
        simp only [hoff]
        exact ih _ _
    · rw [if_neg hj, if_neg hj]

theorem load_phdr_filesz (c : Collab) (base : Nat) (ph : elf64_phdr_t) (st : Kernel) (f : Nat) :
    load_phdr c base { ph with p_filesz := f } st = load_phdr c base ph st := by
  unfold load_phdr
  by_cases hload : ph.p_type = PT_LOAD
  · have h2 : ({ ph with p_filesz := f } : elf64_phdr_t).p_type = PT_LOAD := hload
    rw [if_pos hload, if_pos h2]
    exact page_loop_offset_only c base ph { ph with p_filesz := f } _ _ _ rfl _ _ _
  · have h2 : ¬ ({ ph with p_filesz := f } : elf64_phdr_t).p_type = PT_LOAD := hload
    rw [if_neg hload, if_neg h2]

theorem load_page_outside (mem : Nat → Nat) (cp : Copy) (a : Nat) (hlen : cp.len = PAGE_SIZE)
    (ha : a < cp.dst ∨ cp.dst + PAGE_SIZE ≤ a) : load_page mem cp a = mem a := by
  unfold load_page
  rw [hlen]
  have h1 : ¬ (cp.dst ≤ a ∧ a < cp.dst + PAGE_SIZE) := by omega
  simp only [h1, if_false]

theorem load_page_inside (mem : Nat → Nat) (cp : Copy) (o : Nat) (hlen : cp.len = PAGE_SIZE)
    (ho : o < PAGE_SIZE) (hsrc : cp.src + PAGE_SIZE ≤ cp.dst ∨ cp.dst + PAGE_SIZE ≤ cp.src) :
    load_page mem cp (cp.dst + o) = mem (cp.src + o) := by
  unfold load_page
  rw [hlen]
  have h1 : cp.dst ≤ cp.dst + o ∧ cp.dst + o < cp.dst + PAGE_SIZE := by omega
  have h2 : cp.dst + o - cp.dst = o := by omega
  have h3 : ¬ (cp.dst ≤ cp.src + o ∧ cp.src + o < cp.dst + PAGE_SIZE) := by omega
  simp only [h1, h2, h3, and_self, if_true, if_false]

theorem mem_after_outside (l : List Copy) : ∀ (mem : Nat → Nat) (a : Nat),
    (∀ cp ∈ l, cp.len = PAGE_SIZE ∧ (a < cp.dst ∨ cp.dst + PAGE_SIZE ≤ a)) →
    mem_after mem l a = mem a := by
  induction l with
  | nil => intro mem a _; rfl
  | cons cp rest ih =>
    intro mem a h
    have hcp := h cp (List.mem_cons_self cp rest)
    have : mem_after mem (cp :: rest) a = mem_after (load_page mem cp) rest a := rfl
    rw [this, ih (load_page mem cp) a (fun x hx => h x (List.mem_cons_of_mem cp hx)),
      load_page_outside mem cp a hcp.1 hcp.2]

/-- After a list of whole-page copies into pairwise disjoint pages that hold none of the
sources, every page holds the bytes its source held before. -/
theorem mem_after_read (l : List Copy) : ∀ (mem : Nat → Nat),
    (∀ cp ∈ l, cp.len = PAGE_SIZE) →
    l.Pairwise (fun a b => a.dst + PAGE_SIZE ≤ b.dst ∨ b.dst + PAGE_SIZE ≤ a.dst) →
    (∀ a ∈ l, ∀ b ∈ l, a.src + PAGE_SIZE ≤ b.dst ∨ b.dst + PAGE_SIZE ≤ a.src) →
    ∀ cp ∈ l, ∀ o, o < PAGE_SIZE → mem_after mem l (cp.dst + o) = mem (cp.src + o) := by
  induction l with
  | nil => intro mem _ _ _ cp hcp; cases hcp
  | cons c rest ih =>
    intro mem hlen hd hs cp hcp o ho
    have hstep : mem_after mem (c :: rest) (cp.dst + o) =
        mem_after (load_page mem c) rest (cp.dst + o) := rfl
    rw [hstep]
    rw [List.pairwise_cons] at hd
    have hc := List.mem_cons_self c rest
    rcases List.mem_cons.1 hcp with rfl | hin
    · rw [mem_after_outside rest (load_page mem cp) (cp.dst + o)
        (fun x hx => ⟨hlen x (List.mem_cons_of_mem cp hx), by have := hd.1 x hx; omega⟩)]
      exact load_page_inside mem cp o (hlen cp hc) ho (hs cp hc cp hc)
    · rw [ih (load_page mem c) (fun x hx => hlen x (List.mem_cons_of_mem c hx)) hd.2
        (fun a ha b hb => hs a (List.mem_cons_of_mem c ha) b (List.mem_cons_of_mem c hb))
        cp hin o ho]
      exact load_page_outside mem c (cp.src + o) (hlen c hc)
        (by have := hs cp hcp c hc; omega)

theorem mem_after_append (mem : Nat → Nat) (l1 l2 : List Copy) :
    mem_after mem (l1 ++ l2) = mem_after (mem_after mem l1) l2 := by
  simp [mem_after, List.foldl_append]

/-- C12, as stated, fails: `highSegment` has `p_filesz = 0x10 < p_memsz = 0x1800`, and the
image holds the byte `0xAA` at offset `0x20` behind the segment's file offset; after
`load_segment` the task reads `0xAA`, not zero, at offset `0x20` of the segment. -/
theorem bss_tail_not_zeroed :
    highSegment.p_type = PT_LOAD ∧ highSegment.p_filesz < highSegment.p_memsz ∧
    highSegment.p_filesz ≤ 0x20 ∧ 0x20 < highSegment.p_memsz ∧
    (load_segment exampleCollab (imageOf 0x80200000 [highSegment]) emptyKernel).map
        (fun st2 => read_va st2.proc.pagetable (mem_after exampleMem st2.copies)
          (highSegment.p_vaddr + 0x20)) = .ok (some 0xAA) := by
  decide

/-- C12, amended: `load_segment` copies whole pages from the image and never consults
`p_filesz`. For every `PT_LOAD` segment, when the pages `kalloc` hands out for it are
distinct and hold no part of the image, the byte at offset `o` of page `k` of the segment
is, after the load, the byte the image held at `p_offset + k * PAGE_SIZE + o`; the load is
the same for every value of `p_filesz`. So a byte at an offset from `p_filesz` on reads as
zero only where the image holds a zero there. -/
theorem segment_pages_copied_whole (c : Collab) (base : Nat) (ph : elf64_phdr_t)
    (st st1 : Kernel) (mem : Nat → Nat) (f k o : Nat)
    (hload : ph.p_type = PT_LOAD) (h : load_phdr c base ph st = .ok st1)
    (hk : k < pages_of ph) (ho : o < PAGE_SIZE)
    (hfresh : ((List.range (pages_of ph)).map (page_copy c base ph st.allocated)).Pairwise
      (fun a b => a.dst + PAGE_SIZE ≤ b.dst ∨ b.dst + PAGE_SIZE ≤ a.dst))
    (himg : ∀ a ∈ (List.range (pages_of ph)).map (page_copy c base ph st.allocated),
      ∀ b ∈ (List.range (pages_of ph)).map (page_copy c base ph st.allocated),
        a.src + PAGE_SIZE ≤ b.dst ∨ b.dst + PAGE_SIZE ≤ a.src) :
    load_phdr c base { ph with p_filesz := f } st = .ok st1 ∧
    page_mapping c ph.p_vaddr (map_perm ph.p_flags) st.allocated k ∈ st1.proc.pagetable ∧
    mem_after mem st1.copies
        ((page_mapping c ph.p_vaddr (map_perm ph.p_flags) st.allocated k).pa + o) =
      mem_after mem st.copies ((base + ph.p_offset + k * PAGE_SIZE) % U64 + o) := by
  obtain ⟨_, hst1⟩ := load_phdr_ok_exact c base ph st st1 hload h
  refine ⟨by rw [load_phdr_filesz, h], ?_, ?_⟩
  · rw [hst1]
    exact List.mem_append_right _ (List.mem_map.2 ⟨k, List.mem_range.2 hk, rfl⟩)
  · have hcop : st1.copies = st.copies ++
        (List.range (pages_of ph)).map (page_copy c base ph st.allocated) := by rw [hst1]
    rw [hcop, mem_after_append]
    have hmem : page_copy c base ph st.allocated k ∈
        (List.range (pages_of ph)).map (page_copy c base ph st.allocated) :=
      List.mem_map.2 ⟨k, List.mem_range.2 hk, rfl⟩
    have hlen : ∀ cp ∈ (List.range (pages_of ph)).map (page_copy c base ph st.allocated),
        cp.len = PAGE_SIZE := by
      intro cp hcp
      obtain ⟨i, _, rfl⟩ := List.mem_map.1 hcp
      rfl
    exact mem_after_read _ (mem_after mem st.copies) hlen hfresh himg _ hmem o ho

/-- Witness for C12 amended: after loading `highSegment`, the byte at offset `0x20` of its
first page is the image byte `0xAA`. -/
theorem segment_pages_copied_whole_witness :
    load_phdr exampleCollab 0x80200000 highSegment emptyKernel = .ok loadedHigh ∧
    mem_after exampleMem loadedHigh.copies 0x80400020 = 0xAA :=
  ⟨by decide,
   (segment_pages_copied_whole exampleCollab 0x80200000 highSegment emptyKernel loadedHigh
      exampleMem 0 0 0x20 (by decide) (by decide) (by decide) (by decide) (by decide)
      (by decide)).2.2⟩

/-- Requests for pairwise different pages are all installed. -/
theorem install_of_distinct : ∀ (reqs pt : List Mapping),
    (pt ++ reqs).Pairwise (fun x y => vpn x.va ≠ vpn y.va) → install pt reqs = pt ++ reqs := by
  intro reqs
  induction reqs with
  | nil => intro pt _; simp [install]
  | cons m rest ih =>
    intro pt h
    have hno : pt.any (fun x => decide (vpn x.va = vpn m.va)) = false := by
      rw [List.any_eq_false]
      intro x hx
      have h1 := (List.pairwise_append.1 h).2.2 x hx m (List.mem_cons_self m rest)
      simpa using h1
    have hpt : PageTable_map pt m = .ok (pt ++ [m]) := by
      simp [PageTable_map, hno]
    rw [install, hpt]
    simp only
    have h2 : (pt ++ [m] ++ rest).Pairwise (fun x y => vpn x.va ≠ vpn y.va) := by
      simpa using h
    rw [ih (pt ++ [m]) h2]
    simp

theorem finish_stack_pagetable (st : Kernel) :
    (finish_stack st).proc.pagetable = st.proc.pagetable := rfl

/-- Every request a loadable header of the image makes is in the page table of a
returning load. -/
theorem load_segment_request_mem (c : Collab) (img : Image) (st st2 : Kernel)
    (h : load_segment c img st = .ok st2) (ph : elf64_phdr_t) (hph : ph ∈ load_entries img)
    (k : Nat) (hk : k < pages_of ph) :
    ∃ m ∈ st2.proc.pagetable,
      m.va = (ph.p_vaddr + k * PAGE_SIZE) % U64 ∧ m.size = PAGE_SIZE ∧
      m.perm = map_perm ph.p_flags := by
  obtain ⟨st1, hloop, rfl⟩ := load_segment_ok_split c img st st2 h
  rw [phdr_loop_eq_table] at hloop
  have hreq := (load_list_ok_exact c img.base (phdr_table img) st st1 hloop).2.2.1
  have hin : ph ∈ phdr_table img := (List.mem_filter.1 hph).1
  have hkey : ((ph.p_vaddr + k * PAGE_SIZE) % U64, PAGE_SIZE, map_perm ph.p_flags) ∈
      st1.proc.pagetable.map req_key := by
    rw [hreq]
    apply List.mem_append_right
    rw [List.mem_flatMap]
    exact ⟨ph, hin, List.mem_map.2 ⟨k, List.mem_range.2 hk, rfl⟩⟩
  obtain ⟨m, hm, hmk⟩ := List.mem_map.1 hkey
  simp only [req_key, Prod.mk.injEq] at hmk
  exact ⟨m, by rw [finish_stack_pagetable]; exact hm, hmk.1, hmk.2.1, hmk.2.2⟩

/-- C13, as stated, fails: `unalignedSegment` covers `[0x1800, 0x2800)`; `load_segment`
makes the single request for the address `0x1800`, which lies in page 1, so the address
`0x2000` of the segment lies in page 2, for which no request is made: the task reads
nothing there. It also fails for `hugeSegment`, whose rounded size wraps to zero: the load
succeeds without a single request, so no address of the segment is mapped. -/
theorem unaligned_segment_page_unmapped :
    unalignedSegment.p_type = PT_LOAD ∧
    unalignedSegment.p_vaddr ≤ 0x2000 ∧
    0x2000 < unalignedSegment.p_vaddr + unalignedSegment.p_memsz ∧
    (load_segment exampleCollab (imageOf 0x80200000 [unalignedSegment]) emptyKernel).map
        (fun st2 => st2.proc.pagetable) = .ok [⟨0x1800, 0x80400000, 4096, 26⟩] ∧
    vpn 0x1800 = 1 ∧ vpn 0x2000 = 2 ∧
    (load_segment exampleCollab (imageOf 0x80200000 [unalignedSegment]) emptyKernel).map
        (fun st2 => read_va st2.proc.pagetable (mem_after exampleMem st2.copies) 0x2000) =
      .ok none ∧
    hugeSegment.p_vaddr < hugeSegment.p_vaddr + hugeSegment.p_memsz ∧
    (load_segment exampleCollab (imageOf 0x80200000 [hugeSegment]) emptyKernel).map
        (fun st2 => st2.proc.pagetable) = .ok [] := by
  decide

/-- C13, amended: after a successful `load_segment`, for every `PT_LOAD` segment whose
`p_vaddr` is page-aligned, whose `p_memsz` is at most `2^64 - PAGE_SIZE` and whose end
`p_vaddr + p_memsz` does not exceed `2^64`, and for every byte address `a` with
`p_vaddr <= a < p_vaddr + p_memsz`, a one-page request for the page containing `a` has
been made to `PageTable_map` with the segment's translated permissions plus the user
bit; when no two requests of the task are for the same page, that request is an entry of
the installed page table. -/
theorem aligned_segment_covered (c : Collab) (img : Image) (st st2 : Kernel)
    (ph : elf64_phdr_t) (a : Nat)
    (h : load_segment c img st = .ok st2) (hph : ph ∈ load_entries img)
    (halign : ph.p_vaddr % PAGE_SIZE = 0) (hm : ph.p_memsz ≤ 2 ^ 64 - PAGE_SIZE)
    (hfit : ph.p_vaddr + ph.p_memsz ≤ 2 ^ 64)
    (ha1 : ph.p_vaddr ≤ a) (ha2 : a < ph.p_vaddr + ph.p_memsz) :
    (∃ m ∈ st2.proc.pagetable,
      vpn m.va = vpn a ∧ m.va % PAGE_SIZE = 0 ∧ m.size = PAGE_SIZE ∧
      m.perm = map_perm ph.p_flags ∧ m.perm &&& PTE_U ≠ 0) ∧
    (st2.proc.pagetable.Pairwise (fun x y => vpn x.va ≠ vpn y.va) →
      ∃ m ∈ install [] st2.proc.pagetable,
        vpn m.va = vpn a ∧ m.perm = map_perm ph.p_flags) := by
  have hload : ph.p_type = PT_LOAD := by
    have := (List.mem_filter.1 hph).2
    simpa using this
  have hpages : pages_of ph = page_count ph.p_memsz := by
    rw [pages_of, if_pos hload, map_size_exact hm]
    exact Nat.mul_div_cancel _ (by decide)
  have hk : (a - ph.p_vaddr) / PAGE_SIZE < pages_of ph := by
    rw [hpages]
    unfold page_count PAGE_SIZE at *
    omega
  obtain ⟨m, hmem, hva, hsize, hperm⟩ :=
    load_segment_request_mem c img st st2 h ph hph _ hk
  have hva2 : m.va = ph.p_vaddr + (a - ph.p_vaddr) / PAGE_SIZE * PAGE_SIZE := by
    rw [hva]
    apply Nat.mod_eq_of_lt
    unfold U64 PAGE_SIZE at *
    omega
  have hvpn : vpn m.va = vpn a := by
    rw [hva2]
    unfold vpn PAGE_SIZE at *
    omega
  have hal : m.va % PAGE_SIZE = 0 := by
    rw [hva2]
    unfold PAGE_SIZE at *
    omega
  have hu : m.perm &&& PTE_U ≠ 0 := by
    rw [hperm]
    exact (map_perm_bits ph.p_flags).2.2.2.1
  refine ⟨⟨m, hmem, hvpn, hal, hsize, hperm, hu⟩, fun hd => ?_⟩
  have := install_of_distinct st2.proc.pagetable [] (by simpa using hd)
  rw [this]
  exact ⟨m, by simpa using hmem, hvpn, hperm⟩

/-- Witness for C13 amended: the address `0x10800` of `highSegment` in the image
`[lowSegment, highSegment]`. -/
theorem aligned_segment_covered_witness :
    ∃ m ∈ (finish_stack loadedLowHigh).proc.pagetable,
      vpn m.va = vpn 0x10800 ∧ m.va % PAGE_SIZE = 0 ∧ m.size = PAGE_SIZE ∧
      m.perm = map_perm highSegment.p_flags ∧ m.perm &&& PTE_U ≠ 0 :=
  (aligned_segment_covered exampleCollab (imageOf 0x80200000 [lowSegment, highSegment])
    emptyKernel (finish_stack loadedLowHigh) highSegment 0x10800 (by decide) (by decide)
    (by decide) (by decide) (by decide) (by decide) (by decide)).1

/-! ## Failures -/

/-- The page loop never runs out of rounds: when it stops, `kalloc` had no page. -/
theorem page_loop_error (c : Collab) (base : Nat) (phdr : elf64_phdr_t)
    (sva perm N : Nat) (hN : N * PAGE_SIZE < U64) (e : Fault) :
    ∀ (d k fuel : Nat) (st : Kernel), k + d = N → d ≤ fuel →
    page_loop c base phdr sva perm (N * PAGE_SIZE) fuel (k * PAGE_SIZE) st = .error e →
    e = Fault.exhausted := by
  intro d
  induction d with
  | zero =>
    intro k fuel st hk _ h
    have hkN : ¬ k * PAGE_SIZE < N * PAGE_SIZE := by
      have : k = N := by omega
      rw [this]; exact Nat.lt_irrefl _
    cases fuel with
    | zero => unfold page_loop at h; rw [if_neg hkN] at h; cases h
    | succ f => unfold page_loop at h; rw [if_neg hkN] at h; cases h
  | succ d ih =>
    intro k fuel st hk hf h
    obtain ⟨f, rfl⟩ : ∃ f, fuel = f + 1 := ⟨fuel - 1, by omega⟩
    have hP : 0 < PAGE_SIZE := by decide
    have hlt : k * PAGE_SIZE < N * PAGE_SIZE := Nat.mul_lt_mul_of_pos_right (by omega) hP
    unfold page_loop at h
    rw [if_pos hlt] at h
    cases hka : c.kalloc st.allocated with
    | none =>
      rw [hka] at h
      injection h with h
      exact h.symm
    | some ppn =>
      rw [hka] at h
      simp only at h
      have hwrap : (k * PAGE_SIZE + PAGE_SIZE) % U64 = (k + 1) * PAGE_SIZE := by
        have e1 : k * PAGE_SIZE + PAGE_SIZE = (k + 1) * PAGE_SIZE :=
          (Nat.succ_mul k PAGE_SIZE).symm
        have h1 : (k + 1) * PAGE_SIZE ≤ N * PAGE_SIZE := Nat.mul_le_mul_right _ (by omega)
        rw [e1]
        exact Nat.mod_eq_of_lt (lt_of_le_of_lt h1 hN)
      rw [hwrap] at h
      exact ih (k + 1) f _ (by omega) (by omega) h

theorem load_phdr_error (c : Collab) (base : Nat) (ph : elf64_phdr_t) (st : Kernel) (e : Fault)
    (h : load_phdr c base ph st = .error e) : e = Fault.exhausted := by
  unfold load_phdr at h
  by_cases hload : ph.p_type = PT_LOAD
  · rw [if_pos hload] at h
    simp only at h
    have hN := map_size_multiple ph.p_memsz
    have hlt : (PGROUNDUP ph.p_memsz % U64 / PAGE_SIZE) * PAGE_SIZE < U64 := by
      rw [← hN]; exact Nat.mod_lt _ (by decide)
    rw [hN] at h
    have h3 : (0 : Nat) = 0 * PAGE_SIZE := by simp
    rw [h3] at h
    exact page_loop_error c base ph ph.p_vaddr (map_perm ph.p_flags) _ hlt e _ 0 _ _
      (by omega) (Nat.le_mul_of_pos_right _ (by decide)) h
  · rw [if_neg hload] at h
    cases h

theorem load_list_error (c : Collab) (base : Nat) (e : Fault) :
    ∀ (l : List elf64_phdr_t) (st : Kernel), load_list c base l st = .error e →
    e = Fault.exhausted := by
  intro l
  induction l with
  | nil => intro st h; cases h
  | cons ph rest ih =>
    intro st h
    unfold load_list at h
    cases hph : load_phdr c base ph st with
    | error e2 =>
      rw [hph] at h
      injection h with h
      subst h
      exact load_phdr_error c base ph st _ hph
    | ok st1 =>
      rw [hph] at h
      exact ih st1 h

/-- The header loop runs to its end when the allocator supplies the pages it takes. -/
theorem load_list_run (c : Collab) (base : Nat) :
    ∀ (l : List elf64_phdr_t) (st : Kernel),
    (∀ i, i < total_pages l → (c.kalloc (st.allocated + i)).isSome) →
    ∃ st2, load_list c base l st = .ok st2 := by
  intro l
  induction l with
  | nil => intro st _; exact ⟨st, rfl⟩
  | cons ph rest ih =>
    intro st hk
    have htot : total_pages (ph :: rest) = pages_of ph + total_pages rest := by
      simp [total_pages]
    by_cases hload : ph.p_type = PT_LOAD
    · have hN : PGROUNDUP ph.p_memsz % U64 = pages_of ph * PAGE_SIZE := by
        rw [pages_of, if_pos hload]
        exact map_size_multiple ph.p_memsz
      have hrun := load_phdr_run c base ph st (pages_of ph) hload hN
        (fun i hi => hk i (by omega))
      obtain ⟨st2, h2⟩ := ih
        { proc := { pagetable := st.proc.pagetable ++
                      (List.range (pages_of ph)).map
                        (page_mapping c ph.p_vaddr (map_perm ph.p_flags) st.allocated)
                    entry := st.proc.entry
                    ustack := seg_end ph
                    base_size := st.proc.base_size }
          allocated := st.allocated + pages_of ph
          copies := st.copies ++ (List.range (pages_of ph)).map (page_copy c base ph st.allocated) }
        (fun i hi => by
          have := hk (pages_of ph + i) (by omega)
          rwa [← Nat.add_assoc] at this)
      exact ⟨st2, by rw [load_list, hrun]; exact h2⟩
    · obtain ⟨st2, h2⟩ := ih st (fun i hi => hk i (by rw [htot, pages_of_skip ph hload]; omega))
      exact ⟨st2, by rw [load_list, load_phdr_skip c base ph st hload]; exact h2⟩

/-- A load returns exactly when the allocator supplies every page the image takes. -/
theorem load_segment_ok_iff_pages (c : Collab) (img : Image) (st : Kernel) :
    (∃ st2, load_segment c img st = .ok st2) ↔
      ∀ i, i < total_pages (phdr_table img) → (c.kalloc (st.allocated + i)).isSome := by
  constructor
  · rintro ⟨st2, h⟩
    obtain ⟨st1, hloop, _⟩ := load_segment_ok_split c img st st2 h
    rw [phdr_loop_eq_table] at hloop
    exact (load_list_ok_exact c img.base (phdr_table img) st st1 hloop).2.1
  · intro hk
    obtain ⟨st1, h1⟩ := load_list_run c img.base (phdr_table img) st hk
    exact ⟨finish_stack st1, by rw [load_segment, phdr_loop_eq_table, h1]⟩

theorem load_segment_error (c : Collab) (img : Image) (st : Kernel) (e : Fault)
    (h : load_segment c img st = .error e) : e = Fault.exhausted := by
  unfold load_segment at h
  rw [phdr_loop_eq_table] at h
  cases hl : load_list c img.base (phdr_table img) st with
  | error e2 =>
    rw [hl] at h
    injection h with h
    subst h
    exact load_list_error c img.base _ _ st hl
  | ok st1 =>
    rw [hl] at h
    cases h

/-- C14, as stated, fails: in the image that holds `lowSegment` twice, the request for the
page of the second copy is refused by `PageTable_map` ("already mapped"), yet
`load_segment` completes as a success, with both pages taken from `kalloc`. -/
theorem refused_mapping_load_succeeds :
    load_segment exampleCollab (imageOf 0x80200000 [lowSegment, lowSegment]) emptyKernel =
      .ok { proc := { pagetable := [⟨0x1000, 0x80400000, 4096, 26⟩, ⟨0x1000, 0x80401000, 4096, 26⟩]
                      entry := 0, ustack := 0x4000, base_size := 0x4000 }
            allocated := 2
            copies := [⟨0x80400000, 0x80201000, 4096⟩, ⟨0x80401000, 0x80201000, 4096⟩] } ∧
    PageTable_map [⟨0x1000, 0x80400000, 4096, 26⟩] ⟨0x1000, 0x80401000, 4096, 26⟩ =
      .error MapError.already_mapped ∧
    refused [] [⟨0x1000, 0x80400000, 4096, 26⟩, ⟨0x1000, 0x80401000, 4096, 26⟩] =
      [⟨0x1000, 0x80401000, 4096, 26⟩] := by
  decide

/-- C14, amended: if the page allocator fails for any page of any `PT_LOAD` segment, the
load as a whole fails: `load_segment` does not return (the kernel stops in `kalloc`), and
`load_app` stops there too, before it sets the entry point. The result of `PageTable_map`
is not looked at: `load_segment` returns exactly when `kalloc` supplies every page the
image takes, whatever `PageTable_map` reports. -/
theorem load_fails_iff_allocator_fails (c : Collab) (img : Image) (st : Kernel) :
    ((∃ i, i < total_pages (phdr_table img) ∧ c.kalloc (st.allocated + i) = none) ↔
      load_segment c img st = .error Fault.exhausted) ∧
    ((∀ i, i < total_pages (phdr_table img) → (c.kalloc (st.allocated + i)).isSome) ↔
      ∃ st2, load_segment c img st = .ok st2) ∧
    (∀ (env : AppEnv) (app_id : Nat) (st0 : Kernel) (metadata : AppMetadata),
      get_app_data env.num_app_tab ((app_id + 1) % U64) = .ok metadata →
      elf_check (env.ehdr_at metadata.start) = .ok () →
      env.task_create_pt app_id st0 = .ok st →
      env.collab = c → image_at env metadata.start = img →
      load_segment c img st = .error Fault.exhausted →
      load_app env app_id st0 =
        ([Call.get_app_data, Call.elf_check, Call.task_create_pt, Call.load_segment],
          .error Fault.exhausted)) := by
  have hiff := load_segment_ok_iff_pages c img st
  refine ⟨⟨?_, ?_⟩, hiff.symm, ?_⟩
  · rintro ⟨i, hi, hnone⟩
    cases hres : load_segment c img st with
    | error e => rw [load_segment_error c img st e hres]
    | ok st2 =>
      have := hiff.1 ⟨st2, hres⟩ i hi
      rw [hnone] at this
      cases this
  · intro herr
    by_contra hno
    push_neg at hno
    have hall : ∀ i, i < total_pages (phdr_table img) → (c.kalloc (st.allocated + i)).isSome := by
      intro i hi
      have := hno i hi
      cases hk : c.kalloc (st.allocated + i) with
      | none => exact absurd hk this
      | some v => rfl
    obtain ⟨st2, h2⟩ := hiff.2 hall
    rw [h2] at herr
    cases herr
  · intro env app_id st0 metadata hget hchk htask hc himg hseg
    subst hc
    subst himg
    have hchk2 : elf_check (image_at env metadata.start).ehdr = .ok () := hchk
    simp only [load_app, hget, hchk2, htask, hseg]

/-- Witness for C14 amended: with two pages left, the image `[lowSegment, highSegment]`,
which takes three, is not loaded. -/
theorem load_fails_iff_allocator_fails_witness :
    load_segment twoPageCollab (imageOf 0x80200000 [lowSegment, highSegment]) emptyKernel =
      .error Fault.exhausted :=
  (load_fails_iff_allocator_fails twoPageCollab (imageOf 0x80200000 [lowSegment, highSegment])
    emptyKernel).1.1 ⟨2, by decide, by decide⟩

/-- C15, as stated, fails: `lowSegment` and `overlapSegment` both round to the page range
`[0x1000, 0x2000)`, and the image that holds both is loaded, not rejected: the page table
is asked for the same virtual page twice, with different permissions. -/
theorem overlapping_segments_accepted :
    PGROUNDUP lowSegment.p_memsz = 0x1000 ∧ PGROUNDUP overlapSegment.p_memsz = 0x1000 ∧
    lowSegment.p_vaddr = overlapSegment.p_vaddr ∧
    load_segment exampleCollab (imageOf 0x80200000 [lowSegment, overlapSegment]) emptyKernel =
      .ok { proc := { pagetable := [⟨0x1000, 0x80400000, 4096, 26⟩, ⟨0x1000, 0x80401000, 4096, 22⟩]
                      entry := 0, ustack := 0x4000, base_size := 0x4000 }
            allocated := 2
            copies := [⟨0x80400000, 0x80201000, 4096⟩, ⟨0x80401000, 0x80203000, 4096⟩] } := by
  decide

/-- C15, amended: `load_segment` makes no overlap check and does not look at the result
of `PageTable_map`. Every image is accepted when `kalloc` supplies its pages, whether
the page-rounded ranges of its `PT_LOAD` segments overlap, abut or lie apart: the
requests made are those of each segment in file order, one per page from `p_vaddr` on, so
a page in the rounded range of two segments is requested once for each. -/
theorem overlap_not_checked (c : Collab) (img : Image) (st : Kernel)
    (hk : ∀ i, i < total_pages (phdr_table img) → (c.kalloc (st.allocated + i)).isSome) :
    ∃ st2, load_segment c img st = .ok st2 ∧
      st2.proc.pagetable.map req_key =
        st.proc.pagetable.map req_key ++ (load_entries img).flatMap phdr_requests := by
  obtain ⟨st1, h1⟩ := load_list_run c img.base (phdr_table img) st hk
  refine ⟨finish_stack st1, by rw [load_segment, phdr_loop_eq_table, h1], ?_⟩
  rw [load_list_filter] at h1
  rw [finish_stack_pagetable]
  exact (load_list_ok_exact c img.base _ st st1 h1).2.2.1

/-- Witness for C15 amended: the abutting segments `lowSegment` and `abutSegment` are
loaded, with one request for page 1 and one for page 2. -/
theorem overlap_not_checked_witness :
    ∃ st2, load_segment exampleCollab (imageOf 0x80200000 [lowSegment, abutSegment])
        emptyKernel = .ok st2 ∧
      st2.proc.pagetable.map req_key = [(0x1000, 4096, 26), (0x2000, 4096, 22)] :=
  overlap_not_checked exampleCollab (imageOf 0x80200000 [lowSegment, abutSegment]) emptyKernel
    (fun _ _ => rfl)

/-! ## Loading an application: the claims -/

/-- C16: in `load_app`, validation precedes everything that builds the task. When
`elf_check` rejects the image, the run ends after the calls `get_app_data`, `elf_check`:
`task_create_pt` and `load_segment` are not called and no entry point is set. When
`load_app` returns, all calls were made in the order of the source, `elf_check` had
accepted the header, and the task handed to the closing call `proc_ustack` has `entry`
equal to `e_entry` of the header, which is the entry of the loaded task when
`proc_ustack` leaves that field alone. -/
theorem load_app_validates_first (env : AppEnv) (app_id : Nat) (st0 : Kernel)
    (metadata : AppMetadata)
    (hget : get_app_data env.num_app_tab ((app_id + 1) % U64) = .ok metadata) :
    (elf_check (env.ehdr_at metadata.start) ≠ .ok () →
      (∃ e, load_app env app_id st0 = ([Call.get_app_data, Call.elf_check], .error e)) ∧
      Call.task_create_pt ∉ (load_app env app_id st0).1 ∧
      Call.load_segment ∉ (load_app env app_id st0).1 ∧
      Call.set_entry ∉ (load_app env app_id st0).1) ∧
    (∀ st3, (load_app env app_id st0).2 = .ok st3 →
      elf_check (env.ehdr_at metadata.start) = .ok () ∧
      (load_app env app_id st0).1 =
        [Call.get_app_data, Call.elf_check, Call.task_create_pt, Call.load_segment,
          Call.set_entry, Call.proc_ustack] ∧
      ∃ st2, st2.proc.entry = (env.ehdr_at metadata.start).e_entry ∧
        env.proc_ustack st2 = .ok st3 ∧
        ((∀ s s2, env.proc_ustack s = .ok s2 → s2.proc.entry = s.proc.entry) →
          st3.proc.entry = (env.ehdr_at metadata.start).e_entry)) := by
  constructor
  · intro hrej
    cases hchk : elf_check (env.ehdr_at metadata.start) with
    | ok u => exact absurd hchk hrej
    | error e =>
      have hchk2 : elf_check (image_at env metadata.start).ehdr = .error e := hchk
      have hrun : load_app env app_id st0 = ([Call.get_app_data, Call.elf_check], .error e) := by
        simp only [load_app, hget, hchk2]
      rw [hrun]
      exact ⟨⟨e, rfl⟩, by simp, by simp, by simp⟩
  · intro st3 hres
    cases hchk : elf_check (env.ehdr_at metadata.start) with
    | error e =>
      have hchk2 : elf_check (image_at env metadata.start).ehdr = .error e := hchk
      simp only [load_app, hget, hchk2] at hres
      cases hres
    | ok u =>
      have hchk2 : elf_check (image_at env metadata.start).ehdr = .ok u := hchk
      cases htask : env.task_create_pt app_id st0 with
      | error e =>
        simp only [load_app, hget, hchk2, htask] at hres
        cases hres
      | ok st =>
        cases hseg : load_segment env.collab (image_at env metadata.start) st with
        | error e =>
          simp only [load_app, hget, hchk2, htask, hseg] at hres
          cases hres
        | ok st1 =>
          simp only [load_app, hget, hchk2, htask, hseg] at hres ⊢
          refine ⟨trivial, trivial, _, ?_, hres, fun hkeep => ?_⟩
          · rfl
          · rw [hkeep _ _ hres]
            rfl

/-- Witness for C16: the application with the corrupted header is stopped by `elf_check`
before any task is made, and the one with the good header gets `entry = e_entry`. -/
theorem load_app_validates_first_witness :
    (∃ e, load_app (envOf corruptedEhdr) 0 emptyKernel =
      ([Call.get_app_data, Call.elf_check], .error e)) ∧
    (load_app (envOf exampleEhdr) 0 emptyKernel).2 =
      .ok { loadedLow with proc := { loadedLow.proc with entry := 0x1000 } } ∧
    exampleEhdr.e_entry = 0x1000 ∧
    (load_app (envOf exampleEhdr) 0 emptyKernel).1 =
      [Call.get_app_data, Call.elf_check, Call.task_create_pt, Call.load_segment,
        Call.set_entry, Call.proc_ustack] :=
  ⟨((load_app_validates_first (envOf corruptedEhdr) 0 emptyKernel
      ⟨0x80200000, 0x4000, 1⟩ (by decide)).1 (by decide)).1,
   by decide, by decide,
   ((load_app_validates_first (envOf exampleEhdr) 0 emptyKernel
      ⟨0x80200000, 0x4000, 1⟩ (by decide)).2
      { loadedLow with proc := { loadedLow.proc with entry := 0x1000 } } (by decide)).2.1⟩

/-- C17, as stated, fails: a header whose only fault is the machine field and a header
whose only fault is the class byte are rejected with the same failure, the one panic of
`elf_check`; the offending field cannot be told from it. -/
theorem machine_and_class_failures_coincide :
    magic_word wrongMachineEhdr = ELFMAG ∧ wrongMachineEhdr.e_machine ≠ EM_RISCV ∧
    wrongMachineEhdr.e_ident.getD EI_CLASS 0 = ELFCLASS64 ∧
    magic_word wrongClassEhdr = ELFMAG ∧ wrongClassEhdr.e_machine = EM_RISCV ∧
    wrongClassEhdr.e_ident.getD EI_CLASS 0 ≠ ELFCLASS64 ∧
    elf_check wrongMachineEhdr = .error Fault.panic ∧
    elf_check wrongClassEhdr = .error Fault.panic := by
  decide

/-- C17, amended: when `elf_check` rejects a header, the failure tells a bad magic number
from a bad machine or class field: a bad magic number stops at the assertion, whatever
the other two fields hold, and a good magic number with a wrong machine field or a wrong
class field stops at the one panic "only riscv64 elf file is supported", which is the
same for both fields. -/
theorem elf_check_failure_kinds (ehdr : elf64_ehdr_t) :
    (elf_check ehdr = .error Fault.assertion ↔ magic_word ehdr ≠ ELFMAG) ∧
    (elf_check ehdr = .error Fault.panic ↔
      magic_word ehdr = ELFMAG ∧
        (ehdr.e_machine ≠ EM_RISCV ∨ ehdr.e_ident.getD EI_CLASS 0 ≠ ELFCLASS64)) ∧
    (∀ e, elf_check ehdr = .error e → e = Fault.assertion ∨ e = Fault.panic) := by
  unfold elf_check
  generalize ehdr.e_ident.getD EI_CLASS 0 = cls
  generalize magic_word ehdr = mw
  generalize ehdr.e_machine = mach
  by_cases hm : mw = ELFMAG
  · by_cases h1 : mach = EM_RISCV
    · by_cases h2 : cls = ELFCLASS64
      · simp [hm, h1, h2]
      · simp [hm, h1, h2]
    · simp [hm, h1]
  · simp [hm]

/-! ## End-to-end scenarios and leaks: the claims -/

/-- C18, as stated, fails: on the table `3, 0, 100, 250, 300` with the names `"a"`, `"b"`,
`"c"`, `get_app_data(1)` is `{id 1, start 0, size 100}`, not `{id 1, start 100, size 150}`,
and `get_app_data_by_name("b")` is `{id 2, start 100, size 150}`, not `get_app_data(1)`. -/
theorem registry_scenario_as_stated_fails :
    get_app_data exampleTable 1 = .ok { start := 0, size := 100, id := 1 } ∧
    get_app_data exampleTable 1 ≠ .ok { start := 100, size := 150, id := 1 } ∧
    get_app_data_by_name exampleTable exampleNames (get_app_names exampleMaxTasks exampleTable exampleNames).slots
        ⟨0, 0, 0⟩ [98, 0] = .ok { start := 100, size := 150, id := 2 } ∧
    get_app_data_by_name exampleTable exampleNames (get_app_names exampleMaxTasks exampleTable exampleNames).slots
        ⟨0, 0, 0⟩ [98, 0] ≠ get_app_data exampleTable 1 := by
  decide

/-- C18, amended: with `_num_app = 3, 0, 100, 250, 300` and the names `"a"`, `"b"`, `"c"`,
`get_num_app() = 3`, `get_app_data(2) = {id 2, start 100, size 150}`,
`get_app_data_by_name("b")` equals `get_app_data(2)`, and `get_app_data_by_name("z")`
returns the failure marker `id = -1`, whatever the uninitialised record held. -/
theorem registry_scenario :
    get_num_app exampleTable = 3 ∧
    get_app_data exampleTable 2 = .ok { start := 100, size := 150, id := 2 } ∧
    (∀ uninit, get_app_data_by_name exampleTable exampleNames
        (get_app_names exampleMaxTasks exampleTable exampleNames).slots uninit [98, 0] =
      get_app_data exampleTable 2) ∧
    (∀ uninit, get_app_data_by_name exampleTable exampleNames
        (get_app_names exampleMaxTasks exampleTable exampleNames).slots uninit [122, 0] =
      .ok { uninit with id := -1 }) := by
  refine ⟨by decide, by decide, fun uninit => ?_, fun uninit => ?_⟩
  · rfl
  · rfl

/-- C19: for an image with exactly one `PT_LOAD` segment, with `p_vaddr = 0x1000`,
`p_memsz = 0x100` and flags `R|X`, loaded into a task with an empty page table,
`load_segment` takes one page and makes exactly one request, for the virtual page
`0x1000`, one page long, with read, execute and user permission and without write
permission, and sets `ustack` to `0x4000`, with `base_size` equal to `ustack`. -/
theorem single_segment_scenario (c : Collab) (img : Image) (st : Kernel) (ph : elf64_phdr_t)
    (ppn : Nat) (hone : load_entries img = [ph]) (hv : ph.p_vaddr = 0x1000)
    (hm : ph.p_memsz = 0x100) (hf : ph.p_flags = PF_R ||| PF_X)
    (hst : st.proc.pagetable = []) (hk : c.kalloc st.allocated = some ppn) :
    ∃ st2, load_segment c img st = .ok st2 ∧
      st2.proc.pagetable =
        [{ va := 0x1000, pa := c.phys_addr ppn, size := PAGE_SIZE,
           perm := PTE_R ||| PTE_X ||| PTE_U }] ∧
      install [] st2.proc.pagetable = st2.proc.pagetable ∧
      (PTE_R ||| PTE_X ||| PTE_U) &&& PTE_R ≠ 0 ∧ (PTE_R ||| PTE_X ||| PTE_U) &&& PTE_X ≠ 0 ∧
      (PTE_R ||| PTE_X ||| PTE_U) &&& PTE_U ≠ 0 ∧ (PTE_R ||| PTE_X ||| PTE_U) &&& PTE_W = 0 ∧
      st2.allocated = st.allocated + 1 ∧
      st2.proc.ustack = 0x4000 ∧ st2.proc.base_size = st2.proc.ustack := by
  have hload : ph.p_type = PT_LOAD := by
    have hin : ph ∈ load_entries img := by rw [hone]; exact List.mem_singleton.2 rfl
    simpa using (List.mem_filter.1 hin).2
  have hN : PGROUNDUP ph.p_memsz % U64 = 1 * PAGE_SIZE := by rw [hm]; decide
  have hrun := load_phdr_run c img.base ph st 1 hload hN
    (fun i hi => by
      have : i = 0 := by omega
      subst this
      rw [Nat.add_zero, hk]; rfl)
  have hlist : load_list c img.base (phdr_table img) st = load_list c img.base [ph] st := by
    rw [load_list_filter]
    have : List.filter (fun ph => decide (ph.p_type = PT_LOAD)) (phdr_table img) = [ph] := hone
    rw [this]
  have hend : seg_end ph = 0x1100 := by
    unfold seg_end
    rw [hv, hm]
    decide
  have hpt : ∀ (s : Kernel), s.proc.pagetable = st.proc.pagetable ++
      (List.range 1).map (page_mapping c ph.p_vaddr (map_perm ph.p_flags) st.allocated) →
      (finish_stack s).proc.pagetable =
        [{ va := 0x1000, pa := c.phys_addr ppn, size := PAGE_SIZE,
           perm := PTE_R ||| PTE_X ||| PTE_U }] := by
    intro s hs
    have hr : List.range 1 = [0] := rfl
    have hperm : map_perm (PF_R ||| PF_X) = PTE_R ||| PTE_X ||| PTE_U := by decide
    have hva : (0x1000 + 0 * PAGE_SIZE) % U64 = 0x1000 := by decide
    rw [finish_stack_pagetable, hs]
    simp only [hst, List.nil_append, hr, List.map_cons, List.map_nil,
      page_mapping, hv, hf, hperm, hva, Nat.add_zero, hk, Option.getD_some]
  have hseg : load_segment c img st = .ok (finish_stack
      { proc := { pagetable := st.proc.pagetable ++
                    (List.range 1).map
                      (page_mapping c ph.p_vaddr (map_perm ph.p_flags) st.allocated)
                  entry := st.proc.entry
                  ustack := seg_end ph
                  base_size := st.proc.base_size }
        allocated := st.allocated + 1
        copies := st.copies ++ (List.range 1).map (page_copy c img.base ph st.allocated) }) := by
    rw [load_segment, phdr_loop_eq_table, hlist, load_list, hrun]; rfl
  refine ⟨_, hseg, hpt _ rfl, ?_, by decide, by decide, by decide, by decide, rfl, ?_, rfl⟩
  · rw [hpt _ rfl]
    simp [install, PageTable_map]
  · have h1 : ∀ (s : Kernel), (finish_stack s).proc.ustack =
        (2 * PAGE_SIZE + PGROUNDUP s.proc.ustack) % U64 := fun _ => rfl
    rw [h1]
    simp only [hend]
    decide

/-- Witness for C19: the image that holds a note and `lowSegment`. -/
theorem single_segment_scenario_witness :
    ∃ st2, load_segment exampleCollab (imageOf 0x80200000 [noteSegment, lowSegment])
        emptyKernel = .ok st2 ∧
      st2.proc.pagetable = [{ va := 0x1000, pa := 0x80400000, size := 4096, perm := 26 }] ∧
      install [] st2.proc.pagetable = st2.proc.pagetable ∧
      (PTE_R ||| PTE_X ||| PTE_U) &&& PTE_R ≠ 0 ∧ (PTE_R ||| PTE_X ||| PTE_U) &&& PTE_X ≠ 0 ∧
      (PTE_R ||| PTE_X ||| PTE_U) &&& PTE_U ≠ 0 ∧ (PTE_R ||| PTE_X ||| PTE_U) &&& PTE_W = 0 ∧
      st2.allocated = 1 ∧
      st2.proc.ustack = 0x4000 ∧ st2.proc.base_size = st2.proc.ustack :=
  single_segment_scenario exampleCollab (imageOf 0x80200000 [noteSegment, lowSegment])
    emptyKernel lowSegment 0x80400 (by decide) (by decide) (by decide) (by decide) (by decide)
    (by decide)

theorem page_loop_stop_outcome (c : Collab) (base : Nat) (phdr : elf64_phdr_t)
    (sva perm ms : Nat) : ∀ (fuel j : Nat) (st : Kernel),
    outcome (page_loop_stop c base phdr sva perm ms fuel j st) =
      page_loop c base phdr sva perm ms fuel j st := by
  intro fuel
  induction fuel with
  | zero =>
    intro j st
    unfold page_loop_stop page_loop
    by_cases hj : j < ms
    · rw [if_pos hj, if_pos hj]; rfl
    · rw [if_neg hj, if_neg hj]; rfl
  | succ fuel ih =>
    intro j st
    unfold page_loop_stop page_loop
    by_cases hj : j < ms
    · rw [if_pos hj, if_pos hj]
      cases c.kalloc st.allocated with
      | none => rfl
      | some ppn => exact ih _ _
    · rw [if_neg hj, if_neg hj]; rfl

theorem load_phdr_stop_outcome (c : Collab) (base : Nat) (ph : elf64_phdr_t) (st : Kernel) :
    outcome (load_phdr_stop c base ph st) = load_phdr c base ph st := by
  unfold load_phdr_stop load_phdr
  by_cases hload : ph.p_type = PT_LOAD
  · rw [if_pos hload, if_pos hload]
    exact page_loop_stop_outcome _ _ _ _ _ _ _ _ _
  · rw [if_neg hload, if_neg hload]; rfl

theorem load_list_stop_outcome (c : Collab) (base : Nat) :
    ∀ (l : List elf64_phdr_t) (st : Kernel),
    outcome (load_list_stop c base l st) = load_list c base l st := by
  intro l
  induction l with
  | nil => intro st; rfl
  | cons ph rest ih =>
    intro st
    have h := load_phdr_stop_outcome c base ph st
    unfold load_list_stop load_list
    rw [← h]
    rcases hr : load_phdr_stop c base ph st with ⟨st1, _ | e⟩
    · exact ih st1
    · rfl

theorem load_segment_stop_outcome (c : Collab) (img : Image) (st : Kernel) :
    outcome (load_segment_stop c img st) = load_segment c img st := by
  have h := load_list_stop_outcome c img.base (phdr_table img) st
  unfold load_segment_stop load_segment
  rw [phdr_loop_eq_table, ← h]
  rcases hr : load_list_stop c img.base (phdr_table img) st with ⟨st1, _ | e⟩
  · rfl
  · rfl

/-- Pages are only ever taken: when the page loop stops, one page has been taken for
every request it added to the page table. -/
theorem page_loop_stop_pages (c : Collab) (base : Nat) (phdr : elf64_phdr_t)
    (sva perm ms : Nat) : ∀ (fuel j : Nat) (st : Kernel),
    st.allocated ≤ (page_loop_stop c base phdr sva perm ms fuel j st).1.allocated ∧
    (page_loop_stop c base phdr sva perm ms fuel j st).1.allocated + st.proc.pagetable.length =
      st.allocated + (page_loop_stop c base phdr sva perm ms fuel j st).1.proc.pagetable.length := by
  intro fuel
  induction fuel with
  | zero =>
    intro j st
    unfold page_loop_stop
    by_cases hj : j < ms
    · rw [if_pos hj]; exact ⟨Nat.le_refl _, rfl⟩
    · rw [if_neg hj]; exact ⟨Nat.le_refl _, rfl⟩
  | succ fuel ih =>
    intro j st
    unfold page_loop_stop
    by_cases hj : j < ms
    · rw [if_pos hj]
      cases c.kalloc st.allocated with
      | none => exact ⟨Nat.le_refl _, rfl⟩
      | some ppn =>
        simp only
        have := ih ((j + PAGE_SIZE) % U64)
          { proc := { st.proc with pagetable := st.proc.pagetable ++
                        [{ va := (sva + j) % U64, pa := c.phys_addr ppn, size := PAGE_SIZE,
                           perm := perm }] }
            allocated := st.allocated + 1
            copies := st.copies ++
              [{ dst := c.phys_addr ppn, src := (base + phdr.p_offset + j) % U64,
                 len := PAGE_SIZE }] }
        simp only [List.length_append, List.length_singleton] at this
        omega
    · rw [if_neg hj]; exact ⟨Nat.le_refl _, rfl⟩

theorem load_phdr_stop_pages (c : Collab) (base : Nat) (ph : elf64_phdr_t) (st : Kernel) :
    st.allocated ≤ (load_phdr_stop c base ph st).1.allocated ∧
    (load_phdr_stop c base ph st).1.allocated + st.proc.pagetable.length =
      st.allocated + (load_phdr_stop c base ph st).1.proc.pagetable.length := by
  unfold load_phdr_stop
  by_cases hload : ph.p_type = PT_LOAD
  · rw [if_pos hload]
    exact page_loop_stop_pages c base ph _ _ _ _ _
      { st with proc := { st.proc with ustack := (ph.p_vaddr + ph.p_memsz) % U64 } }
  · rw [if_neg hload]; exact ⟨Nat.le_refl _, rfl⟩

theorem load_list_stop_pages (c : Collab) (base : Nat) :
    ∀ (l : List elf64_phdr_t) (st : Kernel),
    st.allocated ≤ (load_list_stop c base l st).1.allocated ∧
    (load_list_stop c base l st).1.allocated + st.proc.pagetable.length =
      st.allocated + (load_list_stop c base l st).1.proc.pagetable.length := by
  intro l
  induction l with
  | nil => intro st; exact ⟨Nat.le_refl _, rfl⟩
  | cons ph rest ih =>
    intro st
    have h1 := load_phdr_stop_pages c base ph st
    unfold load_list_stop
    rcases hr : load_phdr_stop c base ph st with ⟨st1, _ | e⟩
    · rw [hr] at h1
      have h2 := ih st1
      simp only at h1 ⊢
      omega
    · rw [hr] at h1
      exact h1

/-- C20, as stated, fails: with two pages left, loading the image `[lowSegment,
highSegment]`, which takes three, stops in `kalloc` at the third page; at that point the
two pages handed out during the load are still taken (no page had been taken before),
and both are in requests made to the page table of the unfinished task. -/
theorem failed_load_keeps_pages :
    load_segment twoPageCollab (imageOf 0x80200000 [lowSegment, highSegment]) emptyKernel =
      .error Fault.exhausted ∧
    emptyKernel.allocated = 0 ∧
    load_segment_stop twoPageCollab (imageOf 0x80200000 [lowSegment, highSegment]) emptyKernel =
      ({ proc := { pagetable := [⟨0x1000, 0x80400000, 4096, 26⟩, ⟨0x10000, 0x80401000, 4096, 22⟩]
                   entry := 0, ustack := 0x11800, base_size := 0 }
         allocated := 2
         copies := [⟨0x80400000, 0x80201000, 4096⟩, ⟨0x80401000, 0x80202000, 4096⟩] },
       some Fault.exhausted) := by
  decide

/-- C20, amended: `load_segment` releases no page. In the state in which it ends or
stops, the number of pages handed out by `kalloc` is the number before the load plus one
for every request the load has added to the page table, so it is never smaller than
before; after a load that stops partway the pages obtained so far remain taken, and the
number equals the one before the load only when the load stopped before its first
page. -/
theorem pages_never_released (c : Collab) (img : Image) (st : Kernel) :
    outcome (load_segment_stop c img st) = load_segment c img st ∧
    st.allocated ≤ (load_segment_stop c img st).1.allocated ∧
    (load_segment_stop c img st).1.allocated + st.proc.pagetable.length =
      st.allocated + (load_segment_stop c img st).1.proc.pagetable.length ∧
    ((load_segment_stop c img st).1.allocated = st.allocated ↔
      (load_segment_stop c img st).1.proc.pagetable.length = st.proc.pagetable.length) := by
  have h := load_list_stop_pages c img.base (phdr_table img) st
  have hst : st.allocated ≤ (load_segment_stop c img st).1.allocated ∧
      (load_segment_stop c img st).1.allocated + st.proc.pagetable.length =
        st.allocated + (load_segment_stop c img st).1.proc.pagetable.length := by
    unfold load_segment_stop
    rcases hr : load_list_stop c img.base (phdr_table img) st with ⟨st1, _ | e⟩
    · rw [hr] at h
      exact h
    · rw [hr] at h
      exact h
  refine ⟨load_segment_stop_outcome c img st, hst.1, hst.2, ?_⟩
  omega

/-! ## The board: the claims -/

/-- C27: the Quard Star memory map is overlap-free. The eleven regions of
`quard_star_memmap` are pairwise disjoint as half-open ranges, and so are all windows of
a machine with up to `QUARD_STAR_SOCKETS_MAX` sockets, in which the CLINT and the PLIC of
socket `i` sit at `base + i * size`; the flash size is a multiple of the 256 KiB sector
size and the number of sectors fits 32 bits, so both assertions of
`quard_star_flash_create` hold. -/
theorem memmap_overlap_free :
    quard_star_memmap.length = 11 ∧
    quard_star_memmap.Pairwise Disjoint_regions ∧
    (∀ n, n ≤ QUARD_STAR_SOCKETS_MAX → (board_windows n).Pairwise Disjoint_regions) ∧
    (memmap QUARD_STAR_FLASH).size % QUARD_STAR_FLASH_SECTOR_SIZE = 0 ∧
    QUARD_STAR_FLASH_SECTOR_SIZE = 262144 ∧
    flash_asserts = true := by
  decide

/-- Witness for C27: the windows of a machine with eight sockets. -/
theorem memmap_overlap_free_witness :
    (board_windows 8).Pairwise Disjoint_regions ∧ (board_windows 8).length = 25 :=
  ⟨memmap_overlap_free.2.2.1 8 (by decide), by decide⟩

theorem fdt_limit_lt (dram_base dram_size ram_size : Nat) :
    fdt_limit dram_base dram_size ram_size < U64 := by
  have h : fdt_dram_end dram_base dram_size ram_size < U64 := Nat.mod_lt _ (by decide)
  unfold fdt_limit
  split
  · exact lt_of_le_of_lt (Nat.min_le_left _ _) h
  · exact h

theorem fdt_addr_value (dram_base dram_size ram_size f : Nat) (hf : 0 < f)
    (hint : f < 2 ^ 31) (hfit : f ≤ fdt_limit dram_base dram_size ram_size) :
    riscv_compute_fdt_addr dram_base dram_size ram_size 0 f =
      .ok (QEMU_ALIGN_DOWN (fdt_limit dram_base dram_size ram_size - f) (2 * MiB)) := by
  have hlt := fdt_limit_lt dram_base dram_size ram_size
  have hsize : toInt32 f = (f : Int) := by
    unfold toInt32
    have h1 : f % 2 ^ 32 = f := Nat.mod_eq_of_lt (by omega)
    rw [h1, if_pos hint]
  have hpos : ¬ ((f : Int) ≤ 0) := by omega
  have hconv : (((fdt_limit dram_base dram_size ram_size : Nat) : Int) - (f : Int)) %
      (2 ^ 64 : Int) = ((fdt_limit dram_base dram_size ram_size - f : Nat) : Int) := by
    unfold U64 at hlt
    omega
  unfold riscv_compute_fdt_addr
  simp only [hsize, ne_eq, not_true_eq_false, if_false, hpos]
  have hsame : (if dram_base < 3072 * MiB then
        min ((dram_base + (if ¬ dram_size = 0 then min ram_size dram_size else ram_size)) % U64)
          (3072 * MiB)
      else (dram_base + (if ¬ dram_size = 0 then min ram_size dram_size else ram_size)) % U64) =
      fdt_limit dram_base dram_size ram_size := by
    simp only [fdt_limit, fdt_dram_end, ne_eq]
  rw [hsame, hconv, Int.toNat_ofNat]

/-- C26, as stated, fails: with the DRAM of the board at `0x80000000` and 1 GiB of RAM the
limit is `0xC0000000`, and a device tree of `f = 0x80000000` bytes is positive and not
larger than the limit. The function keeps the size in an `int`, where it is negative, and
ends with "invalid device-tree" instead of returning an address. -/
theorem fdt_size_beyond_int_is_refused :
    fdt_limit 0x80000000 0x40000000 0x40000000 = 0xC0000000 ∧
    0 < 0x80000000 ∧ 0x80000000 ≤ fdt_limit 0x80000000 0x40000000 0x40000000 ∧
    toInt32 0x80000000 = -2147483648 ∧
    riscv_compute_fdt_addr 0x80000000 0x40000000 0x40000000 0 0x80000000 =
      .error FdtFault.invalid_device_tree := by
  decide

/-- C26, amended: for every `dram_base`, `dram_size`, `ram_size` and every FDT size `f`
with `0 < f < 2^31` (the positive range of the `int` the size is kept in) that is not
larger than the limit, `riscv_compute_fdt_addr` returns an address that is a multiple of
2 MiB with `addr + f <= limit`, and it is the largest 2 MiB-aligned address with that
property. Here `dram_end = dram_base + (dram_size != 0 ? min(ram_size, dram_size) :
ram_size)` is the `hwaddr` the function computes (the plain sum when it fits 64 bits), and
`limit = min(dram_end, 3072 MiB)` if `dram_base < 3072 MiB`, else `dram_end`. -/
theorem fdt_addr_highest_aligned (dram_base dram_size ram_size f : Nat) (hf : 0 < f)
    (hint : f < 2 ^ 31) (hfit : f ≤ fdt_limit dram_base dram_size ram_size) :
    ∃ addr, riscv_compute_fdt_addr dram_base dram_size ram_size 0 f = .ok addr ∧
      addr % (2 * MiB) = 0 ∧
      addr + f ≤ fdt_limit dram_base dram_size ram_size ∧
      (∀ a, a % (2 * MiB) = 0 → a + f ≤ fdt_limit dram_base dram_size ram_size → a ≤ addr) ∧
      (dram_base + (if dram_size ≠ 0 then min ram_size dram_size else ram_size) < 2 ^ 64 →
        fdt_dram_end dram_base dram_size ram_size =
          dram_base + (if dram_size ≠ 0 then min ram_size dram_size else ram_size)) := by
  refine ⟨_, fdt_addr_value dram_base dram_size ram_size f hf hint hfit, ?_, ?_, ?_, ?_⟩
  · unfold QEMU_ALIGN_DOWN MiB
    omega
  · unfold QEMU_ALIGN_DOWN MiB
    omega
  · intro a ha hle
    unfold QEMU_ALIGN_DOWN MiB at *
    omega
  · intro hno
    unfold fdt_dram_end
    exact Nat.mod_eq_of_lt hno

/-- Witness for C26 amended: the board's DRAM at `0x80000000` with 1 GiB of RAM and a
device tree of `0x2000` bytes gives an aligned address below the limit `0xC0000000`, which
evaluates to `0xbfe00000`. -/
theorem fdt_addr_highest_aligned_witness :
    riscv_compute_fdt_addr 0x80000000 0x40000000 0x40000000 0 0x2000 = .ok 0xbfe00000 ∧
    ∃ addr, riscv_compute_fdt_addr 0x80000000 0x40000000 0x40000000 0 0x2000 = .ok addr ∧
      addr % (2 * MiB) = 0 ∧
      addr + 0x2000 ≤ fdt_limit 0x80000000 0x40000000 0x40000000 :=
  let ⟨addr, h1, h2, h3, _⟩ :=
    fdt_addr_highest_aligned 0x80000000 0x40000000 0x40000000 0x2000 (by decide) (by decide)
      (by decide)
  ⟨by decide, addr, h1, h2, h3⟩

/-! ## Frame, names, index convention and image bounds: the claims -/

/-- C22: program headers whose type is not `PT_LOAD` have no effect. For every image,
`load_segment` gives the same result (the same pages taken, the same copies and mapping
requests in the same order, the same `ustack` and `base_size`, or the same failure) as for
the image at the same address whose program header table holds the `PT_LOAD` entries
only; the requests made are those of the `PT_LOAD` entries in file order. -/
theorem non_load_entries_have_no_effect (c : Collab) (img img2 : Image) (st : Kernel)
    (hbase : img2.base = img.base) (htab : phdr_table img2 = load_entries img) :
    load_segment c img2 st = load_segment c img st ∧
    (∀ st2, load_segment c img st = .ok st2 →
      st2.proc.pagetable.map req_key =
        st.proc.pagetable.map req_key ++ (load_entries img).flatMap phdr_requests ∧
      st2.allocated = st.allocated + total_pages (load_entries img)) := by
  have hlist : load_list c img.base (phdr_table img) st =
      load_list c img.base (load_entries img) st := load_list_filter c img.base _ st
  constructor
  · unfold load_segment
    rw [phdr_loop_eq_table, phdr_loop_eq_table, htab, hbase, hlist]
  · intro st2 h
    obtain ⟨st1, hloop, rfl⟩ := load_segment_ok_split c img st st2 h
    rw [phdr_loop_eq_table, hlist] at hloop
    have hex := load_list_ok_exact c img.base (load_entries img) st st1 hloop
    exact ⟨by rw [finish_stack_pagetable]; exact hex.2.2.1, hex.1⟩

/-- Witness for C22: a note before and between the two loadable segments changes
nothing. -/
theorem non_load_entries_have_no_effect_witness :
    load_segment exampleCollab (imageOf 0x80200000 [lowSegment, highSegment]) emptyKernel =
      load_segment exampleCollab
        (imageOf 0x80200000 [noteSegment, lowSegment, noteSegment, highSegment]) emptyKernel :=
  (non_load_entries_have_no_effect exampleCollab
    (imageOf 0x80200000 [noteSegment, lowSegment, noteSegment, highSegment])
    (imageOf 0x80200000 [lowSegment, highSegment]) emptyKernel (by decide) (by decide)).1

theorem strlen_name (s t : List Nat) (hz : ∀ c ∈ s, c ≠ 0) : strlen (s ++ 0 :: t) = s.length := by
  induction s with
  | nil => simp [strlen]
  | cons a rest ih =>
    have ha : a ≠ 0 := hz a (List.mem_cons_self a rest)
    have := ih (fun c hc => hz c (List.mem_cons_of_mem a hc))
    simp [strlen, ha, this]

theorem cstr_name (s t : List Nat) (hz : ∀ c ∈ s, c ≠ 0) : cstr (s ++ 0 :: t) = s := by
  induction s with
  | nil => exact cstr_cons_zero t
  | cons a rest ih =>
    have ha : a ≠ 0 := hz a (List.mem_cons_self a rest)
    have := ih (fun c hc => hz c (List.mem_cons_of_mem a hc))
    rw [List.cons_append, cstr_cons_ne _ ha, this]

theorem name_offset_succ (names : List (List Nat)) (i : Nat) (hi : i < names.length) :
    name_offset names (i + 1) = name_offset names i + ((names.getD i []).length + 1) := by
  induction names generalizing i with
  | nil => simp at hi
  | cons s rest ih =>
    cases i with
    | zero => simp [name_offset]
    | succ j =>
      have hj : j < rest.length := by simpa using hi
      have := ih j hj
      simp only [name_offset, List.take_succ_cons, List.map_cons, List.sum_cons,
        List.getD_cons_succ] at this ⊢
      omega

/-- Dropping the names before index `i` from a name blob leaves the blob of the others. -/
theorem names_blob_drop (rest : List Nat) : ∀ (names : List (List Nat)) (i : Nat),
    i ≤ names.length →
    (names_blob names ++ rest).drop (name_offset names i) =
      names_blob (names.drop i) ++ rest := by
  intro names
  induction names with
  | nil => intro i hi; simp [name_offset, names_blob]
  | cons s tl ih =>
    intro i hi
    cases i with
    | zero => simp [name_offset]
    | succ j =>
      have hj : j ≤ tl.length := by simpa using hi
      have hoff : name_offset (s :: tl) (j + 1) = (s ++ [0]).length + name_offset tl j := by
        simp [name_offset]
      have hblob : names_blob (s :: tl) ++ rest = (s ++ [0]) ++ (names_blob tl ++ rest) := by
        simp [names_blob]
      rw [hoff, hblob, List.drop_append, List.drop_succ_cons]
      exact ih j hj

theorem names_blob_at (rest : List Nat) (names : List (List Nat)) (i : Nat)
    (hi : i < names.length) :
    (names_blob names ++ rest).drop (name_offset names i) =
      names.getD i [] ++ 0 :: (names_blob (names.drop (i + 1)) ++ rest) := by
  rw [names_blob_drop rest names i (Nat.le_of_lt hi)]
  have hd : names.drop i = names.getD i [] :: names.drop (i + 1) := by
    rw [List.getD_eq_getElem _ _ hi]
    exact List.drop_eq_getElem_cons hi
  rw [hd]
  simp [names_blob]

/-- The loop of `get_app_names` fills the entries in index order; entry `i` ends up as
the offset of name `i` when the blob holds the names one after the other. -/
theorem get_app_names_loop_spec (rest : List Nat) (names : List (List Nat))
    (hz : ∀ s ∈ names, ∀ c ∈ s, c ≠ 0) :
    ∀ (k i : Nat) (arr : Nat → Nat), i + k ≤ names.length →
    (∀ j, j < i → arr j = name_offset names j) →
    ∀ j, j < i + k →
      get_app_names_loop (names_blob names ++ rest) k i arr j = name_offset names j := by
  intro k
  induction k with
  | zero =>
    intro i arr _ harr j hj
    exact harr j (by omega)
  | succ k ih =>
    intro i arr hlen harr j hj
    rw [get_app_names_loop]
    apply ih (i + 1) _ (by omega) _ j (by omega)
    intro m hm
    unfold get_app_names_step
    by_cases hi0 : i = 0
    · subst hi0
      have hm0 : m = 0 := by omega
      subst hm0
      simp [name_offset]
    · rw [if_neg hi0]
      by_cases hmi : m = i
      · subst hmi
        rw [Function.update_same, harr (m - 1) (by omega)]
        have hlt : m - 1 < names.length := by omega
        rw [names_blob_at rest names (m - 1) hlt,
          strlen_name _ _ (fun c hc => hz _ (by
            rw [List.getD_eq_getElem _ _ hlt]; exact List.getElem_mem hlt) c hc)]
        have := name_offset_succ names (m - 1) hlt
        rw [show m - 1 + 1 = m by omega] at this
        omega
      · rw [Function.update_noteq hmi]
        exact harr m (by omega)

/-- C23, as stated, fails: a table with count `2^32 + 2` and a blob that starts with the
names `"a"`, `"b"`, `"c"` and holds `2^32 + 2` names in all. The count is kept in an `int`,
where it reads `2`, so the loop fills `app_names[0]` and `app_names[1]` only:
`app_names[2]` is left as it was, not at offset `4` where the third name starts. -/
theorem get_app_names_stops_at_int_count :
    get_num_app wideCountTable = 2 ^ 32 + 2 ∧
    get_num_app wideCountTable ≤ ([[97], [98], [99]] ++ manyEmptyNames).length ∧
    2 < get_num_app wideCountTable ∧
    name_offset ([[97], [98], [99]] ++ manyEmptyNames) 2 = 4 ∧
    (get_app_names exampleMaxTasks wideCountTable
      (names_blob ([[97], [98], [99]] ++ manyEmptyNames))).slots 2 = 0 ∧
    (get_app_names exampleMaxTasks wideCountTable
      (names_blob ([[97], [98], [99]] ++ manyEmptyNames))).slots 2
        ≠ name_offset ([[97], [98], [99]] ++ manyEmptyNames) 2 := by
  have hcount : toSizeT (toInt32 (get_num_app wideCountTable)) = 2 := by decide
  have hoff : ∀ tl : List (List Nat), name_offset ([[97], [98], [99]] ++ tl) 2 = 4 := by
    intro tl
    simp [name_offset]
  have hslot : ∀ blob : List Nat, (get_app_names exampleMaxTasks wideCountTable blob).slots 2
      = 0 := by
    intro blob
    simp only [get_app_names, hcount, get_app_names_loop, get_app_names_step]
    simp [Function.update]
  have hlen : manyEmptyNames.length = 2 ^ 32 - 1 := List.length_replicate _ _
  refine ⟨by decide, ?_, by decide, hoff _, hslot _, ?_⟩
  · have h : get_num_app wideCountTable = 2 ^ 32 + 2 := by decide
    rw [h, List.length_append, hlen]
    decide
  · rw [hslot, hoff]
    decide

/-- C23, amended: after `get_app_names` on a table whose count is below `2^31` (it is kept
in an `int`) and at most `MAX_TASKS` (the capacity of `app_names`), and on a name blob
that holds at least `get_num_app()` NUL-terminated names, every store was inside the
array, and for every `i < get_num_app()` the recorded `app_names[i]` is the offset
`sum over k < i of (length of name k + 1)` from `_app_names`, and the string found there
is name `i` exactly, empty names included. -/
theorem get_app_names_recovers_names (MAX_TASKS : Nat) (tab : Nat → Nat)
    (names : List (List Nat)) (rest : List Nat) (i : Nat) (hn : get_num_app tab < 2 ^ 31)
    (hcap : get_num_app tab ≤ MAX_TASKS)
    (hlen : get_num_app tab ≤ names.length) (hz : ∀ s ∈ names, ∀ c ∈ s, c ≠ 0)
    (hi : i < get_num_app tab) :
    (get_app_names MAX_TASKS tab (names_blob names ++ rest)).in_bounds = true ∧
    (get_app_names MAX_TASKS tab (names_blob names ++ rest)).slots i = name_offset names i ∧
    stored_name (names_blob names ++ rest)
        (get_app_names MAX_TASKS tab (names_blob names ++ rest)).slots i =
      names.getD i [] := by
  have hoff : (get_app_names MAX_TASKS tab (names_blob names ++ rest)).slots i
      = name_offset names i := by
    simp only [get_app_names]
    rw [count_roundtrip hn]
    exact get_app_names_loop_spec rest names hz (get_num_app tab) 0 _ (by omega)
      (fun j hj => by omega) i (by omega)
  refine ⟨?_, hoff, ?_⟩
  · simp only [get_app_names]
    rw [count_roundtrip hn]
    exact decide_eq_true hcap
  have hlt : i < names.length := by omega
  unfold stored_name
  rw [hoff, names_blob_at rest names i hlt]
  exact cstr_name _ _ (fun c hc => hz _ (by
    rw [List.getD_eq_getElem _ _ hlt]; exact List.getElem_mem hlt) c hc)

/-- Witness for C23 amended: the names `"ab"`, `""`, `"c"` are found at the offsets 0, 3
and 4. -/
theorem get_app_names_recovers_names_witness :
    (get_app_names exampleMaxTasks exampleTable (names_blob gapNames ++ [])).in_bounds = true ∧
    (get_app_names exampleMaxTasks exampleTable (names_blob gapNames ++ [])).slots 1 = 3 ∧
    (get_app_names exampleMaxTasks exampleTable (names_blob gapNames ++ [])).slots 2 = 4 ∧
    stored_name (names_blob gapNames ++ [])
      (get_app_names exampleMaxTasks exampleTable (names_blob gapNames ++ [])).slots 1 = [] ∧
    stored_name (names_blob gapNames ++ [])
      (get_app_names exampleMaxTasks exampleTable (names_blob gapNames ++ [])).slots 2 = [99] :=
  ⟨(get_app_names_recovers_names exampleMaxTasks exampleTable gapNames [] 1 (by decide)
      (by decide) (by decide) (by decide) (by decide)).1,
   (get_app_names_recovers_names exampleMaxTasks exampleTable gapNames [] 1 (by decide)
      (by decide) (by decide) (by decide) (by decide)).2.1,
   (get_app_names_recovers_names exampleMaxTasks exampleTable gapNames [] 2 (by decide)
      (by decide) (by decide) (by decide) (by decide)).2.1,
   (get_app_names_recovers_names exampleMaxTasks exampleTable gapNames [] 1 (by decide)
      (by decide) (by decide) (by decide) (by decide)).2.2,
   (get_app_names_recovers_names exampleMaxTasks exampleTable gapNames [] 2 (by decide)
      (by decide) (by decide) (by decide) (by decide)).2.2⟩

/-- What a returning header loop has read: the copies it added, in order. -/
theorem load_list_copies (c : Collab) (base : Nat) :
    ∀ (l : List elf64_phdr_t) (st st2 : Kernel), load_list c base l st = .ok st2 →
    ∃ added, st2.copies = st.copies ++ added ∧
      added.map copy_key = l.flatMap (phdr_reads base) := by
  intro l
  induction l with
  | nil =>
    intro st st2 h
    injection h with h
    subst h
    exact ⟨[], by simp, by simp⟩
  | cons ph rest ih =>
    intro st st2 h
    unfold load_list at h
    cases hph : load_phdr c base ph st with
    | error e => rw [hph] at h; cases h
    | ok st1 =>
      rw [hph] at h
      obtain ⟨added, h1, h2⟩ := ih st1 st2 h
      by_cases hload : ph.p_type = PT_LOAD
      · obtain ⟨_, hst1⟩ := load_phdr_ok_exact c base ph st st1 hload hph
        have hc : st1.copies = st.copies ++
            (List.range (pages_of ph)).map (page_copy c base ph st.allocated) := by rw [hst1]
        refine ⟨(List.range (pages_of ph)).map (page_copy c base ph st.allocated) ++ added,
          by rw [h1, hc, List.append_assoc], ?_⟩
        rw [List.map_append, h2, List.flatMap_cons]
        simp [phdr_reads, page_copy, copy_key, Function.comp_def]
      · rw [load_phdr_skip c base ph st hload] at hph
        injection hph with hph
        subst hph
        refine ⟨added, h1, ?_⟩
        rw [h2, List.flatMap_cons]
        simp [phdr_reads, pages_of_skip ph hload]

/-- C25, as stated, fails: an image of `0x1100` bytes at `0x80200000` whose only loadable
segment is `lowSegment` is well formed (the program header table ends at byte 120 and
`p_offset + p_filesz = 0x1100`), yet
`load_segment` copies the `0x1000` bytes from `0x80201000` on, which end `0xf00` bytes
behind the image: `p_offset + 0 + PAGE_SIZE = 0x2000 > 0x1100`. -/
theorem chunk_read_leaves_image :
    load_entries (imageOf 0x80200000 [lowSegment]) = [lowSegment] ∧
    (imageOf 0x80200000 [lowSegment]).ehdr.e_phoff
      + (imageOf 0x80200000 [lowSegment]).ehdr.e_phentsize
        * (imageOf 0x80200000 [lowSegment]).ehdr.e_phnum ≤ 0x1100 ∧
    lowSegment.p_offset + lowSegment.p_filesz ≤ 0x1100 ∧
    (load_segment exampleCollab (imageOf 0x80200000 [lowSegment]) emptyKernel).map
        (fun st2 => st2.copies) = .ok [⟨0x80400000, 0x80201000, 4096⟩] ∧
    ¬ (0x80201000 + 4096 ≤ 0x80200000 + 0x1100) ∧
    ¬ (lowSegment.p_offset + 0 + PAGE_SIZE ≤ 0x1100) := by
  decide

/-- C25, amended: `load_segment` reads the image in whole pages and does not consult
`p_filesz`: for every `PT_LOAD` segment it reads the bytes from `p_offset` up to
`p_offset + PGROUNDUP(p_memsz)`. So for an image of size `S` at `start` (with
`start + S <= 2^64`) in which every `PT_LOAD` segment has `p_memsz <= 2^64 - PAGE_SIZE`
and `p_offset + PGROUNDUP(p_memsz) <= S`, every chunk a returning `load_segment` has
copied lies inside `[start, start + S)`: it is `PAGE_SIZE` bytes at
`start + p_offset + k * PAGE_SIZE` with `p_offset + k * PAGE_SIZE + PAGE_SIZE <= S`. -/
theorem image_reads_in_bounds (c : Collab) (img : Image) (st st2 : Kernel) (S : Nat)
    (h : load_segment c img st = .ok st2)
    (hS : ∀ ph ∈ load_entries img,
      ph.p_memsz ≤ 2 ^ 64 - PAGE_SIZE ∧ ph.p_offset + PGROUNDUP ph.p_memsz ≤ S)
    (hfit : img.base + S ≤ 2 ^ 64) :
    ∃ added, st2.copies = st.copies ++ added ∧
      ∀ cp ∈ added, img.base ≤ cp.src ∧ cp.src + cp.len ≤ img.base + S ∧
        ∃ ph ∈ load_entries img, ∃ k, k < page_count ph.p_memsz ∧
          cp.src = img.base + ph.p_offset + k * PAGE_SIZE ∧ cp.len = PAGE_SIZE ∧
          ph.p_offset + k * PAGE_SIZE + PAGE_SIZE ≤ S := by
  obtain ⟨st1, hloop, rfl⟩ := load_segment_ok_split c img st st2 h
  rw [phdr_loop_eq_table, load_list_filter] at hloop
  obtain ⟨added, h1, h2⟩ := load_list_copies c img.base _ st st1 hloop
  refine ⟨added, h1, fun cp hcp => ?_⟩
  have hkey : copy_key cp ∈ added.map copy_key := List.mem_map.2 ⟨cp, hcp, rfl⟩
  rw [h2, List.mem_flatMap] at hkey
  obtain ⟨ph, hph, hin⟩ := hkey
  have hph2 : ph ∈ load_entries img := hph
  obtain ⟨k, hk, hkeq⟩ := List.mem_map.1 hin
  have hk2 := List.mem_range.1 hk
  have hload : ph.p_type = PT_LOAD := by simpa using (List.mem_filter.1 hph2).2
  obtain ⟨hm, hoff⟩ := hS ph hph2
  have hpages : pages_of ph = page_count ph.p_memsz := by
    rw [pages_of, if_pos hload, map_size_exact hm]
    exact Nat.mul_div_cancel _ (by decide)
  rw [hpages] at hk2
  simp only [copy_key, Prod.mk.injEq] at hkeq
  have hround : PGROUNDUP ph.p_memsz = page_count ph.p_memsz * PAGE_SIZE := rfl
  have hle : ph.p_offset + k * PAGE_SIZE + PAGE_SIZE ≤ S := by
    have : (k + 1) * PAGE_SIZE ≤ page_count ph.p_memsz * PAGE_SIZE :=
      Nat.mul_le_mul_right _ (by omega)
    rw [Nat.succ_mul] at this
    omega
  have hsrc : cp.src = img.base + ph.p_offset + k * PAGE_SIZE := by
    rw [← hkeq.1]
    apply Nat.mod_eq_of_lt
    unfold U64
    have hP : 0 < PAGE_SIZE := by decide
    omega
  have hlen : cp.len = PAGE_SIZE := hkeq.2.symm
  refine ⟨by omega, by omega, ph, hph2, k, hk2, hsrc, hlen, hle⟩

/-- Witness for C25 amended: the same segment in an image of `0x2000` bytes. -/
theorem image_reads_in_bounds_witness :
    ∃ added, loadedLow.copies = emptyKernel.copies ++ added ∧
      ∀ cp ∈ added, 0x80200000 ≤ cp.src ∧ cp.src + cp.len ≤ 0x80200000 + 0x2000 :=
  let ⟨added, h1, h2⟩ :=
    image_reads_in_bounds exampleCollab (imageOf 0x80200000 [lowSegment]) emptyKernel loadedLow
      0x2000 (by decide) (by decide) (by decide)
  ⟨added, h1, fun cp hcp => ⟨(h2 cp hcp).1, (h2 cp hcp).2.1⟩⟩

/-! ## The build tool -/

